import Mathlib

/-!
# Midas: expression lowering and the native string runtime

A shallow embedding of

* `src/Midas/src/valestd/str.c` (namespace `Valestd`): the byte-level string
  runtime `__vinitStr`, `__vaddStr`, `__veqStr`;
* `src/Midas/src/c-compiler/function/expression.cpp` (namespace `Midas`): the
  expression translator `translateExpression` / `translateExpressions`.

Buffers are lists of bytes (for `__vinitStr` one memory with the two pointers as
offsets, so that they may overlap); an access outside a buffer, a failed `assert` and
an `int` counter leaving the range of `int` are explicit faults.
-/

set_option autoImplicit false

namespace Valestd

/-! ## Data model of `str.c` -/

/-- The ways a run of the string runtime can leave defined behaviour. -/
inductive Fault
  /-- An `assert(...)` of the source failed. -/
  | assertFailed
  /-- A byte outside the buffer handed to the function was read or written. -/
  | outOfBounds
  /-- An `int` computation (`i++`, `i + a_len`, `a_len + b_len`) left the range of `int`. -/
  | intOverflow
  deriving DecidableEq, Repr

/-- Largest value of the C type `int` (32 bits). -/
def INT_MAX : Nat := 2147483647

/-- The macro `FALSE` of `str.c`. -/
def FALSE : UInt8 := 0

/-- The macro `TRUE` of `str.c`. -/
def TRUE : UInt8 := 1

/-- The content of a zero-terminated string stored at the start of a buffer:
the bytes before the first zero byte. -/
def cstr (buf : List UInt8) : List UInt8 := buf.takeWhile (fun c => c ≠ 0)

/-! ## `__vinitStr` -/

/-- The loop `for (int i = 0; i < len; i++) { assert(chars[i]); newStr[i] = chars[i]; }`.
The two pointers are offsets into one memory `mem`, so the destination may overlap the
source, as the C signature admits; an access outside `mem` is a fault. The first
argument counts the values the `int` counter `i` can still take. -/
def vinitStrLoop (newStr chars : Nat) (len : Nat) :
    Nat → Nat → List UInt8 → Except Fault (List UInt8)
  | 0, _, _ => .error .intOverflow
  | fuel + 1, i, mem =>
    if i < len then
      match mem[chars + i]? with
      | none => .error .outOfBounds
      | some c =>
        if c = 0 then .error .assertFailed
        else if newStr + i < mem.length then
          vinitStrLoop newStr chars len fuel (i + 1) (mem.set (newStr + i) c)
        else .error .outOfBounds
    else .ok mem

/-- The function `void __vinitStr(char* newStr, const char* chars, int len)`:
the loop, then `newStr[len] = 0`. The pointers `newStr` and `chars` are offsets into
the memory `mem`; the result is the final memory. For a negative `len` the loop body
never runs and the final write goes to the byte `-len` places before `newStr`. -/
def __vinitStr (mem : List UInt8) (newStr chars : Nat) (len : Int) :
    Except Fault (List UInt8) :=
  match len with
  | .negSucc k =>
    if k + 1 ≤ newStr ∧ newStr - (k + 1) < mem.length then .ok (mem.set (newStr - (k + 1)) 0)
    else .error .outOfBounds
  | .ofNat n =>
    match vinitStrLoop newStr chars n (INT_MAX + 1) 0 mem with
    | .error f => .error f
    | .ok d => if newStr + n < d.length then .ok (d.set (newStr + n) 0) else .error .outOfBounds

/-! ## `__vaddStr` -/

/-- The loop `for (; a[i]; i++) { dest[i] = a[i]; }`; it yields the final `i` and `dest`. -/
def vaddStrLoopA (a : List UInt8) : Nat → Nat → List UInt8 → Except Fault (Nat × List UInt8)
  | 0, _, _ => .error .intOverflow
  | fuel + 1, i, dest =>
    match a[i]? with
    | none => .error .outOfBounds
    | some c =>
      if c = 0 then .ok (i, dest)
      else if i < dest.length then vaddStrLoopA a fuel (i + 1) (dest.set i c)
      else .error .outOfBounds

/-- The loop `for (i = 0; b[i]; i++) { dest[i + a_len] = b[i]; }`. -/
def vaddStrLoopB (b : List UInt8) (a_len : Nat) :
    Nat → Nat → List UInt8 → Except Fault (Nat × List UInt8)
  | 0, _, _ => .error .intOverflow
  | fuel + 1, i, dest =>
    match b[i]? with
    | none => .error .outOfBounds
    | some c =>
      if c = 0 then .ok (i, dest)
      else if INT_MAX < i + a_len then .error .intOverflow
      else if i + a_len < dest.length then
        vaddStrLoopB b a_len fuel (i + 1) (dest.set (i + a_len) c)
      else .error .outOfBounds

/-- The function `void __vaddStr(char* a, char* b, char* dest)`. The three buffers are
separate lists, so they do not overlap. The result is the final content of `dest`. -/
def __vaddStr (a b dest : List UInt8) : Except Fault (List UInt8) :=
  match vaddStrLoopA a (INT_MAX + 1) 0 dest with
  | .error f => .error f
  | .ok (a_len, dest1) =>
    match vaddStrLoopB b a_len (INT_MAX + 1) 0 dest1 with
    | .error f => .error f
    | .ok (b_len, dest2) =>
      if INT_MAX < a_len + b_len then .error .intOverflow
      else if a_len + b_len < dest2.length then .ok (dest2.set (a_len + b_len) 0)
      else .error .outOfBounds

/-! ## `__veqStr` -/

/-- The loop `for (int i = 0; ; i++)` of `__veqStr`. -/
def veqStrLoop (a b : List UInt8) : Nat → Nat → Except Fault UInt8
  | 0, _ => .error .intOverflow
  | fuel + 1, i =>
    match a[i]?, b[i]? with
    | some x, some y =>
      if x ≠ y then .ok FALSE
      else if x = 0 then .ok TRUE
      else veqStrLoop a b fuel (i + 1)
    | _, _ => .error .outOfBounds

/-- The function `uint8_t __veqStr(char* a, char* b)`. -/
def __veqStr (a b : List UInt8) : Except Fault UInt8 :=
  veqStrLoop a b (INT_MAX + 1) 0

end Valestd

namespace Midas

/-! ## Data model of the expression translator

The declarations of `expression.cpp`'s collaborators (the AST classes, `Reference`,
`GlobalState`, `FunctionState`, the emission helpers) are not part of the sources at
hand. The types below carry exactly the fields `expression.cpp` reads. -/

/-- Ownership qualifier of a reference type (`Ownership::OWN`, `Ownership::SHARE`, ...). -/
inductive Ownership
  | OWN
  | SHARE
  | BORROW
  deriving DecidableEq, Repr

/-- Location of a reference type: `Location::INLINE` or heap-resident. -/
inductive Location
  | INLINE
  | YONDER
  deriving DecidableEq, Repr

/-- Mutability handed to `loadMember` / `loadElement`. -/
inductive Mutability
  | MUTABLE
  | IMMUTABLE
  deriving DecidableEq, Repr

/-- A full name (`fullName`) keying the metadata registry. -/
structure Name where
  name : String
  deriving DecidableEq, Repr

/-- The referend `KnownSizeArrayT`: only `size` is read by the translator. -/
structure KnownSizeArrayT where
  name : Name
  size : Nat
  deriving DecidableEq, Repr

/-- The referend a reference designates. -/
inductive Referend
  | StructReferend (fullName : Name)
  | InterfaceReferend (fullName : Name)
  | KnownSizeArrayT (k : KnownSizeArrayT)
  | UnknownSizeArrayT (name : Name)
  | Other (kind : String)
  deriving DecidableEq, Repr

/-- A reference type descriptor (`Reference`): ownership, location, referend. -/
structure Reference where
  ownership : Ownership
  location : Location
  referend : Referend
  deriving DecidableEq, Repr

/-- Identifier of a local variable (`VariableId`). -/
structure VariableId where
  number : Nat
  name : String
  deriving DecidableEq, Repr

/-- A local variable (`Local`): its id and its type. -/
structure Local where
  id : VariableId
  type : Reference
  deriving DecidableEq, Repr

/-- A low-level type handle (`LLVMTypeRef`). -/
structure LType where
  name : String
  deriving DecidableEq, Repr

/-- A low-level value handle (`LLVMValueRef`). -/
inductive LVal
  /-- The value of the emitted instruction with this id. -/
  | inst (id : Nat)
  /-- The constant `LLVMConstInt(intType(bits), value, false)`. -/
  | constInt (bits : Nat) (value : Nat)
  /-- The parameter `LLVMGetParam(containingFunc, index)`. -/
  | param (index : Nat)
  /-- The value `LLVMGetUndef(type)`. -/
  | undef (type : LType)
  /-- A global of the module, such as an interface table. -/
  | global (name : String)
  /-- The value of `makeNever()`: it takes no builder, so it is no instruction. -/
  | never
  deriving DecidableEq, Repr

/-- An edge of the registry: the implementation of one interface by one struct. -/
structure Edge where
  structName : Name
  interfaceName : Name
  deriving DecidableEq, Repr

/-- A struct definition of the registry with its edges. -/
structure StructDefinition where
  name : Name
  edges : List Edge
  deriving DecidableEq, Repr

/-- The program: the struct definitions of the metadata registry. -/
structure Program where
  structs : List StructDefinition
  deriving DecidableEq, Repr

/-- The global state: the program and the tables built at registration. -/
structure GlobalState where
  program : Program
  interfaceRefStructs : List (Name × LType)
  interfaceTablePtrs : List (Edge × LVal)
  deriving DecidableEq, Repr

/-- Modelled from the spec: `Program::getStruct`, whose code is not at hand; the
registry offers "name-keyed lookup" of struct definitions. -/
def Program.getStruct (p : Program) (fullName : Name) : Option StructDefinition :=
  p.structs.find? (fun sd => sd.name = fullName)

/-- Modelled from the spec: `StructDefinition::getEdgeForInterface`, whose code is not
at hand; "the per-struct table of which interfaces it implements", keyed by name. -/
def StructDefinition.getEdgeForInterface (sd : StructDefinition) (interfaceName : Name) :
    Option Edge :=
  sd.edges.find? (fun e => e.interfaceName = interfaceName)

/-- Modelled from the spec: `GlobalState::getInterfaceTablePtr`, whose code is not at
hand; "the corresponding dispatch table" registered for an edge. -/
def GlobalState.getInterfaceTablePtr (g : GlobalState) (edge : Edge) : Option LVal :=
  (g.interfaceTablePtrs.find? (fun p => p.1 = edge)).map (fun p => p.2)

/-- Modelled from the spec: `GlobalState::getInterfaceRefStruct`, whose code is not at
hand; the fat-reference type of an interface, keyed by name. -/
def GlobalState.getInterfaceRefStruct (g : GlobalState) (fullName : Name) : Option LType :=
  (g.interfaceRefStructs.find? (fun p => p.1 = fullName)).map (fun p => p.2)

/-- Modelled from the spec: `ownershipToMutability`, whose code is not at hand;
"OWN/BORROW ⇒ mutable, SHARE ⇒ immutable-view". -/
def ownershipToMutability : Ownership → Mutability
  | .OWN => .MUTABLE
  | .BORROW => .MUTABLE
  | .SHARE => .IMMUTABLE

/-- The constant `LLVMConstInt(LLVMIntType(bits), n, false)`. -/
def LLVMConstInt (bits : Nat) (n : Nat) : LVal := .constInt bits (n % 2 ^ bits)

/-- The helper `constI64LE(n)`. -/
def constI64LE (n : Nat) : LVal := LLVMConstInt 64 n

/-- The helper `makeNever()`. -/
def makeNever : LVal := .never

/-- What the builder has emitted. A helper whose code is not at hand and that takes
the builder is recorded as one instruction carrying the helper's arguments. -/
inductive Instr
  | flare (name : String)
  | makeConstIntExpr (dst : Nat) (bits : Nat) (value : Int)
  | ret (dst : Nat) (value : LVal)
  | alloca (dst : Nat) (name : String)
  | load (dst : Nat) (addr : LVal) (name : String)
  | store (value : LVal) (addr : LVal)
  | gep (dst : Nat) (ptr : LVal) (indices : List LVal) (name : String)
  | insertValue (dst : Nat) (agg : LVal) (value : LVal) (index : Nat) (name : String)
  | adjustRc (value : LVal) (type : Reference) (delta : Int)
  | acquireReference (type : Reference) (value : LVal)
  | discard (type : Reference) (value : LVal)
  | freeConcrete (value : LVal) (type : Reference)
  | getKnownSizeArrayContentsPtr (dst : Nat) (wrapper : LVal)
  | getUnknownSizeArrayContentsPtr (dst : Nat) (wrapper : LVal)
  | getUnknownSizeArrayLength (dst : Nat) (ptr : LVal)
  | getControlBlockPtr (dst : Nat) (ref : LVal) (type : Reference)
  | buildInterfaceCall (dst : Nat) (args : List LVal) (virtualParamIndex : Nat)
      (indexInEdge : Nat)
  | loadMember (dst : Nat) (structType : Reference) (structExpr : LVal)
      (mutability : Mutability) (expectedResultType : Reference) (memberIndex : Nat)
      (memberName : String)
  | swapMember (dst : Nat) (structDef : StructDefinition) (structExpr : LVal)
      (memberIndex : Nat) (memberName : String) (newValue : LVal)
  | loadElement (dst : Nat) (arrayType : Reference) (size : LVal) (arrayPtr : LVal)
      (mutability : Mutability) (index : LVal)
  | translateConstruct (dst : Nat) (type : Reference) (members : List LVal)
  | foreachArrayElement (size : LVal) (arrayPtr : LVal) (index : LVal) (body : List Instr)
  deriving Repr

/-- The function translation state together with the builder: the slot address of
every local, the instructions emitted so far, and the id of the next instruction. -/
structure State where
  localAddrs : List (VariableId × LVal)
  instrs : List Instr
  nextId : Nat
  deriving Repr

/-- The ways a translation aborts. -/
inductive Abort
  /-- An `assert(...)` of `expression.cpp` failed. -/
  | assertFailed
  /-- A `dynamic_cast` gave null and was dereferenced. -/
  | badCast
  /-- A lookup in the function state or in the registry found nothing. -/
  | notFound
  deriving DecidableEq, Repr

/-- The expression nodes. A kind whose translation `expression.cpp` hands to another
file (`translateCall`, `translateIf`, ...) carries only the identity of the node. -/
inductive Expression
  | ConstantI64 (value : Int)
  | ConstantBool (value : Bool)
  | Discard (node : Nat)
  | Return (sourceExpr : Expression)
  | Stackify (local_ : Local) (sourceExpr : Expression)
  | LocalStore (local_ : Local) (localName : String) (sourceExpr : Expression)
  | LocalLoad (local_ : Local) (localName : String)
  | Unstackify (local_ : Local)
  | Call (node : Nat)
  | ExternCall (node : Nat)
  | Argument (argumentIndex : Nat)
  | ConstantStr (node : Nat)
  | NewStruct (sourceExprs : List Expression) (resultType : Reference)
  | Block (exprs : List Expression)
  | If (node : Nat)
  | While (node : Nat)
  | Destroy (node : Nat)
  | MemberLoad (structExpr : Expression) (structType : Reference)
      (expectedResultType : Reference) (memberIndex : Nat) (memberName : String)
  | DestroyKnownSizeArrayIntoFunction (consumerType : Reference)
      (arrayReferend : KnownSizeArrayT) (arrayExpr : Expression)
      (consumerExpr : Expression) (arrayType : Reference)
  | DestroyUnknownSizeArray (consumerType : Reference) (arrayExpr : Expression)
      (consumerExpr : Expression) (arrayType : Reference)
  | KnownSizeArrayLoad (arrayType : Reference) (arrayExpr : Expression)
      (indexExpr : Expression)
  | UnknownSizeArrayLoad (arrayType : Reference) (arrayExpr : Expression)
      (indexExpr : Expression)
  | ArrayLength (sourceType : Reference) (sourceExpr : Expression)
  | NewArrayFromValues (node : Nat)
  | ConstructUnknownSizeArray (node : Nat)
  | InterfaceCall (node : Nat)
  | MemberStore (sourceExpr : Expression) (structExpr : Expression)
      (structType : Reference) (memberIndex : Nat) (memberName : String)
  | StructToInterfaceUpcast (sourceExpr : Expression) (sourceStructType : Reference)
      (sourceStructId : Name) (targetInterfaceRef : Name)
  | Unrecognized (kind : String)
  deriving Repr

/-- The result of translating one node: a value and the new state, or an abort. -/
abbrev Translated (α : Type) : Type := Except Abort (α × State)

/-- The translators of other files that `translateExpression` delegates to. Their code
is not at hand, so they are parameters of the translation. -/
structure Delegates where
  translateDiscard : Nat → State → Translated LVal
  translateCall : Nat → State → Translated LVal
  translateExternCall : Nat → State → Translated LVal
  translateConstantStr : Nat → State → Translated LVal
  translateIf : Nat → State → Translated LVal
  translateWhile : Nat → State → Translated LVal
  translateDestructure : Nat → State → Translated LVal
  translateNewArrayFromValues : Nat → State → Translated LVal
  translateConstructUnknownSizeArray : Nat → State → Translated LVal
  translateInterfaceCall : Nat → State → Translated LVal

/-! ## Emission primitives -/

/-- Append one instruction that yields no value the translator uses. -/
def State.emit (s : State) (i : Instr) : State :=
  { s with instrs := s.instrs ++ [i] }

/-- Append one instruction and yield its value; the instruction takes the next id. -/
def State.emitValue (s : State) (mk : Nat → Instr) : LVal × State :=
  (.inst s.nextId, { s with instrs := s.instrs ++ [mk s.nextId], nextId := s.nextId + 1 })

/-- The lookup `functionState->getLocalAddr(id)`. -/
def State.getLocalAddr (s : State) (id : VariableId) : Option LVal :=
  (s.localAddrs.find? (fun p => p.1 = id)).map (fun p => p.2)

/-- The call `buildFlare(FL(), globalState, builder, name)`, which every node starts
with; `name` stands for `typeid(*expr).name()`, here the name of the node's kind. -/
def buildFlare (name : String) (s : State) : State := s.emit (.flare name)

/-- The call `makeConstIntExpr(builder, intType(bits), value)`. -/
def makeConstIntExpr (bits : Nat) (value : Int) (s : State) : LVal × State :=
  s.emitValue (fun d => .makeConstIntExpr d bits value)

/-- The call `LLVMBuildRet(builder, value)`; its result is the emitted instruction. -/
def LLVMBuildRet (value : LVal) (s : State) : LVal × State :=
  s.emitValue (fun d => .ret d value)

/-- The call `LLVMBuildLoad(builder, addr, name)`. -/
def LLVMBuildLoad (addr : LVal) (name : String) (s : State) : LVal × State :=
  s.emitValue (fun d => .load d addr name)

/-- The call `LLVMBuildStore(builder, value, addr)`. -/
def LLVMBuildStore (value addr : LVal) (s : State) : State :=
  s.emit (.store value addr)

/-- The call `LLVMBuildGEP(builder, ptr, indices, count, name)`. -/
def LLVMBuildGEP (ptr : LVal) (indices : List LVal) (name : String) (s : State) :
    LVal × State :=
  s.emitValue (fun d => .gep d ptr indices name)

/-- The call `LLVMBuildInsertValue(builder, agg, value, index, name)`. -/
def LLVMBuildInsertValue (agg value : LVal) (index : Nat) (name : String) (s : State) :
    LVal × State :=
  s.emitValue (fun d => .insertValue d agg value index name)

/-- Modelled from the spec: `makeLocal`, whose code is not at hand; "create a named
storage slot, store the initializer's value into it", and record the slot's address
for the local in the function state. -/
def makeLocal (local_ : Local) (valueToStore : LVal) (s : State) : State :=
  let r := s.emitValue (fun d => .alloca d local_.id.name)
  let s2 := LLVMBuildStore valueToStore r.1 r.2
  { s2 with localAddrs := (local_.id, r.1) :: s2.localAddrs }

/-- The call `adjustRc(from, globalState, builder, value, type, delta)`. -/
def adjustRc (value : LVal) (type : Reference) (delta : Int) (s : State) : State :=
  s.emit (.adjustRc value type delta)

/-- The call `acquireReference(from, globalState, builder, type, value)`. -/
def acquireReference (type : Reference) (value : LVal) (s : State) : State :=
  s.emit (.acquireReference type value)

/-- The call `discard(from, globalState, functionState, builder, type, value)`. -/
def discard (type : Reference) (value : LVal) (s : State) : State :=
  s.emit (.discard type value)

/-- The call `freeConcrete(from, globalState, functionState, builder, value, type)`. -/
def freeConcrete (value : LVal) (type : Reference) (s : State) : State :=
  s.emit (.freeConcrete value type)

/-- The call `getKnownSizeArrayContentsPtr(builder, wrapper)`. -/
def getKnownSizeArrayContentsPtr (wrapper : LVal) (s : State) : LVal × State :=
  s.emitValue (fun d => .getKnownSizeArrayContentsPtr d wrapper)

/-- The call `getUnknownSizeArrayContentsPtr(builder, wrapper)`. -/
def getUnknownSizeArrayContentsPtr (wrapper : LVal) (s : State) : LVal × State :=
  s.emitValue (fun d => .getUnknownSizeArrayContentsPtr d wrapper)

/-- The call `getUnknownSizeArrayLength(builder, ptr)`. -/
def getUnknownSizeArrayLength (ptr : LVal) (s : State) : LVal × State :=
  s.emitValue (fun d => .getUnknownSizeArrayLength d ptr)

/-- The call `getControlBlockPtr(builder, ref, type)`. -/
def getControlBlockPtr (ref : LVal) (type : Reference) (s : State) : LVal × State :=
  s.emitValue (fun d => .getControlBlockPtr d ref type)

/-- The call `buildInterfaceCall(builder, args, virtualParamIndex, indexInEdge)`. -/
def buildInterfaceCall (args : List LVal) (virtualParamIndex indexInEdge : Nat)
    (s : State) : LVal × State :=
  s.emitValue (fun d => .buildInterfaceCall d args virtualParamIndex indexInEdge)

/-- The call `loadMember(from, globalState, builder, structType, structExpr, mutability,
expectedResultType, memberIndex, memberName)`. -/
def loadMember (structType : Reference) (structExpr : LVal) (mutability : Mutability)
    (expectedResultType : Reference) (memberIndex : Nat) (memberName : String)
    (s : State) : LVal × State :=
  s.emitValue (fun d =>
    .loadMember d structType structExpr mutability expectedResultType memberIndex memberName)

/-- The call `swapMember(builder, structDef, structExpr, memberIndex, memberName, newValue)`. -/
def swapMember (structDef : StructDefinition) (structExpr : LVal) (memberIndex : Nat)
    (memberName : String) (newValue : LVal) (s : State) : LVal × State :=
  s.emitValue (fun d => .swapMember d structDef structExpr memberIndex memberName newValue)

/-- The call `loadElement(globalState, functionState, builder, arrayType, size, arrayPtr,
mutability, index)`. -/
def loadElement (arrayType : Reference) (size arrayPtr : LVal) (mutability : Mutability)
    (index : LVal) (s : State) : LVal × State :=
  s.emitValue (fun d => .loadElement d arrayType size arrayPtr mutability index)

/-- The call `translateConstruct(from, globalState, builder, type, members)`. -/
def translateConstruct (type : Reference) (members : List LVal) (s : State) :
    LVal × State :=
  s.emitValue (fun d => .translateConstruct d type members)

/-- Modelled from the spec: `foreachArrayElement`, whose code is not at hand; "given a
length and a base pointer, invokes a per-index callback sequentially in ascending
order". The callback builds the loop body once, for the loop's index value; the
emitted loop carries the length, the base pointer, the index value and that body. -/
def foreachArrayElement (sizeLE arrayPtrLE : LVal) (iterationBuilder : LVal → State → State)
    (s : State) : State :=
  let indexLE := LVal.inst s.nextId
  let bodyBuilder : State :=
    { localAddrs := s.localAddrs, instrs := [], nextId := s.nextId + 1 }
  let body := iterationBuilder indexLE bodyBuilder
  { s with
    instrs := s.instrs ++ [.foreachArrayElement sizeLE arrayPtrLE indexLE body.instrs],
    nextId := body.nextId }

/-! ## The translator -/

mutual

/-- The function `translateExpression` of `expression.cpp`, branch by branch. -/
def translateExpression (h : Delegates) (g : GlobalState) :
    Expression → State → Except Abort (LVal × State)
  | .ConstantI64 value, s =>
    let s0 := buildFlare "ConstantI64" s
    .ok (makeConstIntExpr 64 value s0)
  | .ConstantBool value, s =>
    let s0 := buildFlare "ConstantBool" s
    .ok (makeConstIntExpr 1 (if value then 1 else 0) s0)
  | .Discard node, s =>
    h.translateDiscard node (buildFlare "Discard" s)
  | .Return sourceExpr, s => do
    let s0 := buildFlare "Return" s
    let (value, s1) ← translateExpression h g sourceExpr s0
    pure (LLVMBuildRet value s1)
  | .Stackify local_ sourceExpr, s => do
    let s0 := buildFlare "Stackify" s
    let (valueToStore, s1) ← translateExpression h g sourceExpr s0
    let s2 := makeLocal local_ valueToStore s1
    pure (makeNever, s2)
  | .LocalStore local_ localName sourceExpr, s => do
    let s0 := buildFlare "LocalStore" s
    match s0.getLocalAddr local_.id with
    | none => throw .notFound
    | some localAddr =>
      let (oldValue, s1) := LLVMBuildLoad localAddr localName s0
      let (valueToStore, s2) ← translateExpression h g sourceExpr s1
      let s3 := LLVMBuildStore valueToStore localAddr s2
      pure (oldValue, s3)
  | .LocalLoad local_ localName, s =>
    let s0 := buildFlare "LocalLoad" s
    if local_.type.location = Location.INLINE then
      match s0.getLocalAddr local_.id with
      | none => .error .notFound
      | some localAddr => .ok (LLVMBuildLoad localAddr localName s0)
    else
      match s0.getLocalAddr local_.id with
      | none => .error .notFound
      | some localAddr =>
        let (ptrLE, s1) := LLVMBuildLoad localAddr localName s0
        let s2 := adjustRc ptrLE local_.type 1 s1
        .ok (ptrLE, s2)
  | .Unstackify local_, s =>
    let s0 := buildFlare "Unstackify" s
    match s0.getLocalAddr local_.id with
    | none => .error .notFound
    | some localAddr => .ok (LLVMBuildLoad localAddr "" s0)
  | .Call node, s =>
    h.translateCall node (buildFlare "Call" s)
  | .ExternCall node, s =>
    h.translateExternCall node (buildFlare "ExternCall" s)
  | .Argument argumentIndex, s =>
    let s0 := buildFlare "Argument" s
    .ok (.param argumentIndex, s0)
  | .ConstantStr node, s =>
    h.translateConstantStr node (buildFlare "ConstantStr" s)
  | .NewStruct sourceExprs resultType, s => do
    let s0 := buildFlare "NewStruct" s
    let (memberExprs, s1) ← translateExpressions h g sourceExprs s0
    pure (translateConstruct resultType memberExprs s1)
  | .Block exprs, s => do
    let s0 := buildFlare "Block" s
    let (values, s1) ← translateExpressions h g exprs s0
    match values.getLast? with
    | none => throw .assertFailed
    | some last => pure (last, s1)
  | .If node, s =>
    h.translateIf node (buildFlare "If" s)
  | .While node, s =>
    h.translateWhile node (buildFlare "While" s)
  | .Destroy node, s =>
    h.translateDestructure node (buildFlare "Destroy" s)
  | .MemberLoad structExpr structType expectedResultType memberIndex memberName, s => do
    let s0 := buildFlare "MemberLoad" s
    let (structLE, s1) ← translateExpression h g structExpr s0
    let mutability := ownershipToMutability structType.ownership
    let (resultLE, s2) :=
      loadMember structType structLE mutability expectedResultType memberIndex memberName s1
    let s3 := discard structType structLE s2
    pure (resultLE, s3)
  | .DestroyKnownSizeArrayIntoFunction consumerType arrayReferend arrayExpr consumerExpr
      arrayType, s => do
    let s0 := buildFlare "DestroyKnownSizeArrayIntoFunction" s
    let (arrayWrapperLE, s1) ← translateExpression h g arrayExpr s0
    let (arrayPtrLE, s2) := getKnownSizeArrayContentsPtr arrayWrapperLE s1
    let (consumerLE, s3) ← translateExpression h g consumerExpr s2
    let s4 :=
      foreachArrayElement (LLVMConstInt 64 arrayReferend.size) arrayPtrLE
        (fun indexLE bodyBuilder =>
          let b1 := acquireReference consumerType consumerLE bodyBuilder
          let (elementPtrLE, b2) :=
            LLVMBuildGEP arrayPtrLE [constI64LE 0, indexLE] "elementPtr" b1
          let (elementLE, b3) := LLVMBuildLoad elementPtrLE "element" b2
          (buildInterfaceCall [consumerLE, elementLE] 0 0 b3).2)
        s3
    let s5 ←
      match arrayType.ownership with
      | .OWN => pure (adjustRc arrayWrapperLE arrayType (-1) s4)
      | .SHARE => pure s4
      | .BORROW => throw Abort.assertFailed
    let s6 := freeConcrete arrayWrapperLE arrayType s5
    let s7 := discard consumerType consumerLE s6
    pure (makeNever, s7)
  | .DestroyUnknownSizeArray consumerType arrayExpr consumerExpr arrayType, s => do
    let s0 := buildFlare "DestroyUnknownSizeArray" s
    let (arrayWrapperLE, s1) ← translateExpression h g arrayExpr s0
    let (arrayPtrLE, s2) := getUnknownSizeArrayContentsPtr arrayWrapperLE s1
    let (arrayLenLE, s2b) := getUnknownSizeArrayLength arrayPtrLE s2
    let (consumerLE, s3) ← translateExpression h g consumerExpr s2b
    let s4 :=
      foreachArrayElement arrayLenLE arrayPtrLE
        (fun indexLE bodyBuilder =>
          let b1 := acquireReference consumerType consumerLE bodyBuilder
          let (elementPtrLE, b2) :=
            LLVMBuildGEP arrayPtrLE [constI64LE 0, indexLE] "elementPtr" b1
          let (elementLE, b3) := LLVMBuildLoad elementPtrLE "element" b2
          (buildInterfaceCall [consumerLE, elementLE] 0 0 b3).2)
        s3
    let s5 ←
      match arrayType.ownership with
      | .OWN => pure (adjustRc arrayWrapperLE arrayType (-1) s4)
      | .SHARE => pure s4
      | .BORROW => throw Abort.assertFailed
    let s6 := freeConcrete arrayWrapperLE arrayType s5
    let s7 := discard consumerType consumerLE s6
    pure (makeNever, s7)
  | .KnownSizeArrayLoad arrayType arrayExpr indexExpr, s => do
    let s0 := buildFlare "KnownSizeArrayLoad" s
    let (arrayWrapperPtrLE, s1) ← translateExpression h g arrayExpr s0
    match arrayType.referend with
    | .KnownSizeArrayT k =>
      let sizeLE := constI64LE k.size
      let (indexLE, s2) ← translateExpression h g indexExpr s1
      let mutability := ownershipToMutability arrayType.ownership
      let s3 := discard arrayType arrayWrapperPtrLE s2
      let (arrayPtrLE, s4) := getKnownSizeArrayContentsPtr arrayWrapperPtrLE s3
      pure (loadElement arrayType sizeLE arrayPtrLE mutability indexLE s4)
    | _ => throw .badCast
  | .UnknownSizeArrayLoad arrayType arrayExpr indexExpr, s => do
    let s0 := buildFlare "UnknownSizeArrayLoad" s
    let (arrayWrapperPtrLE, s1) ← translateExpression h g arrayExpr s0
    let (sizeLE, s1b) := getUnknownSizeArrayLength arrayWrapperPtrLE s1
    let (indexLE, s2) ← translateExpression h g indexExpr s1b
    let mutability := ownershipToMutability arrayType.ownership
    let s3 := discard arrayType arrayWrapperPtrLE s2
    let (arrayPtrLE, s4) := getUnknownSizeArrayContentsPtr arrayWrapperPtrLE s3
    pure (loadElement arrayType sizeLE arrayPtrLE mutability indexLE s4)
  | .ArrayLength sourceType sourceExpr, s => do
    let s0 := buildFlare "ArrayLength" s
    let (arrayWrapperPtrLE, s1) ← translateExpression h g sourceExpr s0
    let (sizeLE, s2) := getUnknownSizeArrayLength arrayWrapperPtrLE s1
    let s3 := discard sourceType arrayWrapperPtrLE s2
    pure (sizeLE, s3)
  | .NewArrayFromValues node, s =>
    h.translateNewArrayFromValues node (buildFlare "NewArrayFromValues" s)
  | .ConstructUnknownSizeArray node, s =>
    h.translateConstructUnknownSizeArray node (buildFlare "ConstructUnknownSizeArray" s)
  | .InterfaceCall node, s =>
    h.translateInterfaceCall node (buildFlare "InterfaceCall" s)
  | .MemberStore sourceExpr structExpr structType memberIndex memberName, s => do
    let s0 := buildFlare "MemberStore" s
    let (sourceLE, s1) ← translateExpression h g sourceExpr s0
    let (structLE, s2) ← translateExpression h g structExpr s1
    match structType.referend with
    | .StructReferend fullName =>
      match g.program.getStruct fullName with
      | none => throw .notFound
      | some structDefM =>
        let (oldMemberLE, s3) :=
          swapMember structDefM structLE memberIndex memberName sourceLE s2
        let s4 := discard structType structLE s3
        pure (oldMemberLE, s4)
    | _ => throw .badCast
  | .StructToInterfaceUpcast sourceExpr sourceStructType sourceStructId targetInterfaceRef,
      s => do
    let s0 := buildFlare "StructToInterfaceUpcast" s
    let (sourceLE, s1) ← translateExpression h g sourceExpr s0
    if sourceStructType.location = Location.INLINE then throw .assertFailed
    else
      match g.getInterfaceRefStruct targetInterfaceRef with
      | none => throw .notFound
      | some interfaceRefLT =>
        let interfaceRefLE0 := LVal.undef interfaceRefLT
        let (controlBlockPtrLE, s2) := getControlBlockPtr sourceLE sourceStructType s1
        let (interfaceRefLE1, s3) :=
          LLVMBuildInsertValue interfaceRefLE0 controlBlockPtrLE 0
            "interfaceRefWithOnlyObj" s2
        match g.program.getStruct sourceStructId with
        | none => throw .notFound
        | some structDefM =>
          match structDefM.getEdgeForInterface targetInterfaceRef with
          | none => throw .notFound
          | some edge =>
            match g.getInterfaceTablePtr edge with
            | none => throw .notFound
            | some tablePtrLE =>
              pure (LLVMBuildInsertValue interfaceRefLE1 tablePtrLE 1 "interfaceRef" s3)
  | .Unrecognized _, _ => .error .assertFailed

/-- The function `translateExpressions` of `expression.cpp`: the loop over `exprs`. -/
def translateExpressions (h : Delegates) (g : GlobalState) :
    List Expression → State → Except Abort (List LVal × State)
  | [], s => .ok ([], s)
  | expr :: rest, s => do
    let (value, s1) ← translateExpression h g expr s
    let (values, s2) ← translateExpressions h g rest s1
    pure (value :: values, s2)

end

/-- Delegates that translate nothing: every delegated kind aborts. They serve to run
the translator on programs made of the kinds `expression.cpp` translates itself. -/
def noDelegates : Delegates where
  translateDiscard := fun _ _ => .error .notFound
  translateCall := fun _ _ => .error .notFound
  translateExternCall := fun _ _ => .error .notFound
  translateConstantStr := fun _ _ => .error .notFound
  translateIf := fun _ _ => .error .notFound
  translateWhile := fun _ _ => .error .notFound
  translateDestructure := fun _ _ => .error .notFound
  translateNewArrayFromValues := fun _ _ => .error .notFound
  translateConstructUnknownSizeArray := fun _ _ => .error .notFound
  translateInterfaceCall := fun _ _ => .error .notFound

/-! ## Reading the emitted code -/

/-- Modelled from the spec: the run of the loop `foreachArrayElement` emits, whose code
is not at hand; the helper "invokes a per-index callback sequentially in ascending
order". For a loop whose length is the constant `n`, the iterations are listed in the
order they run, each as the value the index has and the body that runs with it. -/
def Instr.iterations : Instr → Option (List (Nat × List Instr))
  | .foreachArrayElement (.constInt _ n) _ _ body => some ((List.range n).map (fun i => (i, body)))
  | _ => none

/-- The loop body expected of an array-consuming destroy whose loop index is the value
of instruction `n`: acquire the consumer, address the element at the index, load it,
call the consumer with the consumer and the element. -/
def consumeBody (consumerType : Reference) (arrayPtrLE consumerLE : LVal) (n : Nat) :
    List Instr :=
  [.acquireReference consumerType consumerLE,
   .gep (n + 1) arrayPtrLE [constI64LE 0, .inst n] "elementPtr",
   .load (n + 2) (.inst (n + 1)) "element",
   .buildInterfaceCall (n + 3) [consumerLE, .inst (n + 2)] 0 0]

/-- The component `index` of the aggregate `v`, as the `insertValue` instructions
define it. The instructions are given latest first. -/
def componentOf : List Instr → LVal → Nat → Option LVal
  | [], _, _ => none
  | .insertValue dst agg value idx _ :: earlier, v, index =>
    if v = .inst dst then
      if idx = index then some value else componentOf earlier agg index
    else componentOf earlier v index
  | _ :: earlier, v, index => componentOf earlier v index

/-- The component `index` of the aggregate `v` in the code emitted so far. -/
def State.component (s : State) (v : LVal) (index : Nat) : Option LVal :=
  componentOf s.instrs.reverse v index

/-! ## Running the emitted code

The meaning of the instructions the translator emits itself (`load`, `store`, `ret`)
and of the slot creation; the instructions that stand for helpers whose code is not
at hand get their meaning from a parameter. -/

/-- The state of a run: the values of the instructions executed so far, the memory,
the function's arguments, the next free slot address, and the returned value once
the function has returned. -/
structure Machine where
  regs : Nat → Option Int
  mem : Int → Option Int
  params : Nat → Option Int
  nextAddr : Int
  returned : Option Int

/-- Record the value of instruction `r`. -/
def Machine.setReg (m : Machine) (r : Nat) (x : Int) : Machine :=
  { m with regs := fun k => if k = r then some x else m.regs k }

/-- Write `x` at address `a`. -/
def Machine.setMem (m : Machine) (a x : Int) : Machine :=
  { m with mem := fun k => if k = a then some x else m.mem k }

/-- The value a value handle has in a run. -/
def evalV (m : Machine) : LVal → Option Int
  | .inst n => m.regs n
  | .constInt _ v => some (Int.ofNat v)
  | .param i => m.params i
  | .undef _ => none
  | .global _ => none
  | .never => none

/-- One instruction. `makeConstIntExpr` follows the spec ("scalar constants are produced
by materializing the literal value"); `alloca` hands out the next free address. -/
def step (ext : Instr → Machine → Option Machine) : Instr → Machine → Option Machine
  | .flare _, m => some m
  | .makeConstIntExpr dst bits value, m => some (m.setReg dst (value % 2 ^ bits))
  | .alloca dst _, m =>
    some ({ m with nextAddr := m.nextAddr + 1 }.setReg dst m.nextAddr)
  | .load dst addr _, m =>
    match evalV m addr with
    | none => none
    | some a =>
      match m.mem a with
      | none => none
      | some c => some (m.setReg dst c)
  | .store value addr, m =>
    match evalV m value, evalV m addr with
    | some x, some a => some (m.setMem a x)
    | _, _ => none
  | .ret _ value, m =>
    match evalV m value with
    | none => none
    | some x => some { m with returned := some x }
  | i, m => ext i m

/-- A sequence of instructions; nothing runs once the function has returned. -/
def exec (ext : Instr → Machine → Option Machine) : List Instr → Machine → Option Machine
  | [], m => some m
  | i :: rest, m =>
    match m.returned with
    | some _ => some m
    | none =>
      match step ext i m with
      | none => none
      | some m1 => exec ext rest m1

/-- The value handle was produced before instruction `n`: it is no instruction, or an
instruction with a smaller id. -/
def LVal.below (n : Nat) : LVal → Prop
  | .inst k => k < n
  | _ => True

instance LVal.decidableBelow (n : Nat) (w : LVal) : Decidable (w.below n) :=
  match w with
  | .inst k => inferInstanceAs (Decidable (k < n))
  | .constInt _ _ => inferInstanceAs (Decidable True)
  | .param _ => inferInstanceAs (Decidable True)
  | .undef _ => inferInstanceAs (Decidable True)
  | .global _ => inferInstanceAs (Decidable True)
  | .never => inferInstanceAs (Decidable True)

/-- The source expression `e`, translated from state `t` and run from machine `m`,
yields the value `A` without touching the slot at address `a` of the local `x`: it
translates to the value `v` and state `t'`, only appending code and taking new
instruction ids, and keeps the address of `x`; its code runs to `m'` without
returning, leaves the slot at `a` and every earlier value as they were, and gives `v`
the value `A`. -/
def SourceYields (h : Delegates) (g : GlobalState) (ext : Instr → Machine → Option Machine)
    (e : Expression) (x : VariableId) (a : Int) (t : State) (m : Machine) (A : Int)
    (v : LVal) (t' : State) (m' : Machine) : Prop :=
  translateExpression h g e t = .ok (v, t') ∧
  (∃ code, t'.instrs = t.instrs ++ code ∧ exec ext code m = some m') ∧
  t.nextId ≤ t'.nextId ∧
  t'.getLocalAddr x = t.getLocalAddr x ∧
  m'.returned = none ∧
  m'.mem a = m.mem a ∧
  (∀ w : LVal, w.below t.nextId → evalV m' w = evalV m w) ∧
  evalV m' v = some A

/-- A registry with no struct, no interface and no table. -/
def emptyGlobalState : GlobalState :=
  { program := { structs := [] }, interfaceRefStructs := [], interfaceTablePtrs := [] }

/-- The meaning of the helper instructions when no helper is given one: such an
instruction cannot run. -/
def noExt : Instr → Machine → Option Machine := fun _ _ => none

/-- A fresh translation state: no local, no code, ids start at `0`. -/
def emptyState : State := { localAddrs := [], instrs := [], nextId := 0 }

end Midas

namespace Midas

/-! ## Sources that may write the slot, and the refcount contract -/

/-- The source expression `e`, translated from state `t` and run from machine `m`,
yields the value `A`: it translates to the value `v` and state `t'`, appending the
code `code` and taking new instruction ids only; `v` is no later instruction; `code`
runs from `m` to `m'` without returning, leaves every earlier value as it was, and
gives `v` the value `A`. Nothing is asked of the memory: the source may write any
slot. -/
def SourceRuns (h : Delegates) (g : GlobalState) (ext : Instr → Machine → Option Machine)
    (e : Expression) (t : State) (m : Machine) (A : Int)
    (v : LVal) (t' : State) (code : List Instr) (m' : Machine) : Prop :=
  translateExpression h g e t = .ok (v, t') ∧
  t'.instrs = t.instrs ++ code ∧
  exec ext code m = some m' ∧
  t.nextId ≤ t'.nextId ∧
  v.below t'.nextId ∧
  m'.returned = none ∧
  (∀ w : LVal, w.below t.nextId → evalV m' w = evalV m w) ∧
  evalV m' v = some A

/-- Modelled from the spec: the refcount effect of `adjustRc`, `acquireReference` and
`discard`, whose code is not at hand. `adjustRefcount(type, value, delta)` is the
"generic signed adjustment primitive"; `acquire(type, value)` is "increment the
refcount if and only if the type is SHARE and HEAP-RESIDENT; no-op otherwise";
`discard(type, value)` is "the inverse release operation — decrements the refcount for
SHARE values ... and is a no-op for BORROW and INLINE values. OWN values are not
released here". The result is the adjustment an instruction makes to the refcount of
the value `v`; the spec gives no other instruction a refcount effect, and a loop is
not followed into its body. -/
def rcAdjustment (v : LVal) : Instr → Int
  | .adjustRc w _ delta => if w = v then delta else 0
  | .acquireReference type w =>
    if w = v ∧ type.ownership = Ownership.SHARE ∧ type.location ≠ Location.INLINE then 1
    else 0
  | .discard type w =>
    if w = v ∧ type.ownership = Ownership.SHARE ∧ type.location ≠ Location.INLINE then -1
    else 0
  | _ => 0

/-- The number of instructions of `code` that raise the refcount of `v`. -/
def rcIncrements (v : LVal) (code : List Instr) : Nat :=
  (code.filter (fun i => decide (0 < rcAdjustment v i))).length

/-- The number of instructions of `code` that lower the refcount of `v`. -/
def rcDecrements (v : LVal) (code : List Instr) : Nat :=
  (code.filter (fun i => decide (rcAdjustment v i < 0))).length

end Midas

namespace Midas

/-- The signed reading of a 64-bit pattern. -/
def asSigned64 (pattern : Int) : Int := (pattern + 2 ^ 63) % 2 ^ 64 - 2 ^ 63

end Midas
/-! # Theorems on the string runtime -/

namespace Valestd

/-- The copy loop of `__vinitStr`, on a destination that does not overlap the source:
it succeeds when no source byte in `[i, len)` is zero, and then the memory differs
from the one it started on exactly at the destination bytes `[i, len)`, which hold
the source bytes. -/
theorem vinitStrLoop_ok (newStr chars len : Nat)
    (hdisj : newStr + len < chars ∨ chars + len ≤ newStr) :
    ∀ (fuel i : Nat) (d : List UInt8), i ≤ len → len < i + fuel →
      chars + len ≤ d.length → newStr + len ≤ d.length →
      (∀ j, i ≤ j → j < len → d[chars + j]? ≠ some 0) →
      ∃ out, vinitStrLoop newStr chars len fuel i d = .ok out ∧ out.length = d.length ∧
        ∀ k, out[k]? =
          if newStr + i ≤ k ∧ k < newStr + len then d[chars + (k - newStr)]? else d[k]? := by
  intro fuel
  induction fuel with
  | zero => intro i d h1 h2; omega
  | succ fuel ih =>
    intro i d h1 h2 hc hd hz
    unfold vinitStrLoop
    by_cases hi : i < len
    · have hic : chars + i < d.length := by omega
      have hid : newStr + i < d.length := by omega
      have hne : d[chars + i] ≠ 0 := by
        intro h0
        exact hz i (Nat.le_refl i) hi (by rw [List.getElem?_eq_getElem hic, h0])
      have hkeep : ∀ j, j < len →
          (d.set (newStr + i) d[chars + i])[chars + j]? = d[chars + j]? := by
        intro j hj
        rw [List.getElem?_set_ne (by omega)]
      obtain ⟨out, ho, hl, hj⟩ := ih (i + 1) (d.set (newStr + i) d[chars + i]) (by omega)
        (by omega) (by simpa using hc) (by simpa using hd)
        (fun j h1 h2 => by rw [hkeep j h2]; exact hz j (by omega) h2)
      refine ⟨out, ?_, by simpa using hl, ?_⟩
      · simp [hi, List.getElem?_eq_getElem hic, hne, hid, ho]
      · intro k
        rw [hj k]
        by_cases hk : newStr + (i + 1) ≤ k ∧ k < newStr + len
        · have hk2 : newStr + i ≤ k ∧ k < newStr + len := by omega
          rw [if_pos hk, if_pos hk2]
          have := hkeep (k - newStr) (by omega)
          exact this
        · rw [if_neg hk]
          by_cases hki : k = newStr + i
          · subst hki
            have hk2 : newStr + i ≤ newStr + i ∧ newStr + i < newStr + len := by omega
            rw [if_pos hk2]
            simp [hid, hic]
          · have hk2 : ¬ (newStr + i ≤ k ∧ k < newStr + len) := by omega
            rw [if_neg hk2, List.getElem?_set_ne (fun h => hki h.symm)]
    · refine ⟨d, by simp [hi], rfl, ?_⟩
      intro k
      have : ¬ (newStr + i ≤ k ∧ k < newStr + len) := by omega
      rw [if_neg this]

/-- The copy loop of `__vinitStr`, on a destination that does not overlap the source,
fails its assertion when a readable source byte in `[i, len)` is zero. -/
theorem vinitStrLoop_assert (newStr chars len : Nat)
    (hdisj : newStr + len < chars ∨ chars + len ≤ newStr) :
    ∀ (fuel i : Nat) (d : List UInt8), i ≤ len → len < i + fuel →
      newStr + len ≤ d.length →
      (∃ j, i ≤ j ∧ j < len ∧ d[chars + j]? = some 0) →
      vinitStrLoop newStr chars len fuel i d = .error .assertFailed := by
  intro fuel
  induction fuel with
  | zero => intro i d h1 h2; omega
  | succ fuel ih =>
    intro i d h1 h2 hd hz
    obtain ⟨j, hij, hjl, hj0⟩ := hz
    unfold vinitStrLoop
    have hi : i < len := by omega
    have hjd : chars + j < d.length := by
      rcases List.getElem?_eq_some.1 hj0 with ⟨h, _⟩
      exact h
    have hic : chars + i < d.length := by omega
    have hid : newStr + i < d.length := by omega
    by_cases h0 : d[chars + i] = 0
    · simp [hi, List.getElem?_eq_getElem hic, h0]
    · have hji : j ≠ i := by
        intro h
        subst h
        rw [List.getElem?_eq_getElem hic] at hj0
        exact h0 (Option.some.inj hj0)
      have hj0' : (d.set (newStr + i) d[chars + i])[chars + j]? = some 0 := by
        rw [List.getElem?_set_ne (by omega)]
        exact hj0
      have := ih (i + 1) (d.set (newStr + i) d[chars + i]) (by omega) (by omega)
        (by simpa using hd) ⟨j, by omega, hjl, hj0'⟩
      simp [hi, List.getElem?_eq_getElem hic, h0, hid, this]

end Valestd

namespace Valestd

/-- A buffer with no zero before index `n` and a zero at `n` holds the string made of
its first `n` bytes. -/
theorem cstr_eq_take : ∀ (l : List UInt8) (n : Nat), (∀ i, i < n → l[i]? ≠ some 0) →
    l[n]? = some 0 → cstr l = l.take n := by
  intro l
  induction l with
  | nil => intro n _ h; simp at h
  | cons x xs ih =>
    intro n hn h0
    cases n with
    | zero =>
      simp at h0
      simp [cstr, h0]
    | succ n =>
      have hx : x ≠ 0 := by
        intro hx
        exact hn 0 (by omega) (by simp [hx])
      have := ih n (fun i hi => by simpa using hn (i + 1) (by omega)) (by simpa using h0)
      simp only [cstr] at this ⊢
      rw [List.takeWhile_cons_of_pos (by simpa using hx), this]
      simp


/-- Claim C10, counterexample. With the destination one byte into the source
(`buf = 97 0 120 120`, `chars = buf`, `newStr = buf + 1`, `len = 2`) the byte
`chars[1]` is zero at the call, yet no assertion fails: the first copy overwrites it
before it is tested, and the function returns with `buf = 97 97 97 0`. -/
theorem vinitStr_overlap_no_assert :
    __vinitStr [97, 0, 120, 120] 1 0 2 = .ok [97, 97, 97, 0] ∧
    ∃ i, i < (2 : Int).toNat ∧ ([97, 0, 120, 120] : List UInt8)[0 + i]? = some 0 :=
  ⟨rfl, 1, by decide, by decide⟩

/-- Claim C10, amended. For `0 ≤ len` (an `int`), a destination of more than `len` bytes
that does not overlap the source bytes `chars[0..len-1]`, and a source that is
readable up to `len` bytes or up to a zero byte before `len`: `__vinitStr` fails its
assertion if and only if one of `chars[0..len-1]` is zero; when none is, it returns
with `newStr[i] = chars[i]` for every `i < len`, `newStr[len] = 0` and every other byte
of the memory unchanged, so `newStr` holds a zero-terminated string of length exactly
`len`. -/
theorem vinitStr_spec (mem : List UInt8) (newStr chars : Nat) (len : Int) (h0 : 0 ≤ len)
    (hmax : len ≤ INT_MAX)
    (hread : chars + len.toNat ≤ mem.length ∨
      ∃ j, j < len.toNat ∧ mem[chars + j]? = some 0)
    (hd : newStr + len.toNat < mem.length)
    (hdisj : newStr + len.toNat < chars ∨ chars + len.toNat ≤ newStr) :
    (__vinitStr mem newStr chars len = .error .assertFailed ↔
        ∃ i, i < len.toNat ∧ mem[chars + i]? = some 0) ∧
    ((∀ i, i < len.toNat → mem[chars + i]? ≠ some 0) →
      ∃ out, __vinitStr mem newStr chars len = .ok out ∧
        (∀ i, i < len.toNat → out[newStr + i]? = mem[chars + i]?) ∧
        out[newStr + len.toNat]? = some 0 ∧
        (∀ k, k < newStr ∨ newStr + len.toNat < k → out[k]? = mem[k]?) ∧
        out.length = mem.length ∧
        cstr (out.drop newStr) = (mem.drop chars).take len.toNat) := by
  obtain ⟨n, rfl⟩ := Int.eq_ofNat_of_zero_le h0
  have hn : n ≤ INT_MAX := by exact_mod_cast hmax
  simp only [Int.toNat_ofNat] at hread hd hdisj ⊢
  have hsucc : (∀ i, i < n → mem[chars + i]? ≠ some 0) →
      ∃ out, __vinitStr mem newStr chars (n : Int) = .ok out ∧
        (∀ i, i < n → out[newStr + i]? = mem[chars + i]?) ∧ out[newStr + n]? = some 0 ∧
        (∀ k, k < newStr ∨ newStr + n < k → out[k]? = mem[k]?) ∧
        out.length = mem.length ∧
        cstr (out.drop newStr) = (mem.drop chars).take n := by
    intro hz
    have hc : chars + n ≤ mem.length := by
      rcases hread with h | ⟨j, hj, hj0⟩
      · exact h
      · exact absurd hj0 (hz j hj)
    obtain ⟨d, hdl, hlen, hget⟩ := vinitStrLoop_ok newStr chars n hdisj (INT_MAX + 1) 0 mem
      (Nat.zero_le n) (by omega) hc (by omega) (fun j _ hj => hz j hj)
    have hnd : newStr + n < d.length := by omega
    have h1 : ∀ i, i < n → (d.set (newStr + n) 0)[newStr + i]? = mem[chars + i]? := by
      intro i hi
      rw [List.getElem?_set_ne (by omega), hget (newStr + i)]
      rw [if_pos (by omega)]
      congr 2
      omega
    have h2 : (d.set (newStr + n) 0)[newStr + n]? = some 0 := by
      simp [List.getElem?_set, hnd]
    refine ⟨d.set (newStr + n) 0, ?_, h1, h2, ?_, by simpa using hlen, ?_⟩
    · show __vinitStr mem newStr chars (Int.ofNat n) = _
      simp [__vinitStr, hdl, hnd]
    · intro k hk
      rw [List.getElem?_set_ne (by omega), hget k]
      rw [if_neg (by omega)]
    · have hnz : ∀ i, i < n → ((d.set (newStr + n) 0).drop newStr)[i]? ≠ some 0 := by
        intro i hi
        rw [List.getElem?_drop, h1 i hi]
        exact hz i hi
      have hz0 : ((d.set (newStr + n) 0).drop newStr)[n]? = some 0 := by
        rw [List.getElem?_drop]
        exact h2
      rw [cstr_eq_take _ n hnz hz0]
      apply List.ext_getElem?
      intro i
      by_cases hi : i < n
      · rw [List.getElem?_take_of_lt hi, List.getElem?_take_of_lt hi, List.getElem?_drop,
          List.getElem?_drop, h1 i hi]
      · rw [List.getElem?_take_eq_none (by omega), List.getElem?_take_eq_none (by omega)]
  refine ⟨⟨?_, ?_⟩, hsucc⟩
  · intro herr
    by_contra hne
    have hz : ∀ i, i < n → mem[chars + i]? ≠ some 0 := fun i hi h => hne ⟨i, hi, h⟩
    obtain ⟨out, ho, _⟩ := hsucc hz
    rw [ho] at herr
    cases herr
  · rintro ⟨i, hi, hz⟩
    have := vinitStrLoop_assert newStr chars n hdisj (INT_MAX + 1) 0 mem (Nat.zero_le n)
      (by omega) (by omega) ⟨i, Nat.zero_le i, hi, hz⟩
    show __vinitStr mem newStr chars (Int.ofNat n) = _
    simp [__vinitStr, this]

/-- The theorem `vinitStr_spec` at `chars = "hi!"` (offset 0) and a destination of five
bytes right after it (offset 3), `len = 3`; and at a source `"h"` that ends with its
zero before `len = 3`, where the assertion fails. -/
theorem vinitStr_spec_witness :
    (∃ out, __vinitStr [104, 105, 33, 9, 9, 9, 9, 9] 3 0 3 = .ok out ∧
        (∀ i, i < (3 : Int).toNat →
          out[3 + i]? = ([104, 105, 33, 9, 9, 9, 9, 9] : List UInt8)[0 + i]?) ∧
        out[3 + (3 : Int).toNat]? = some 0 ∧
        (∀ k, k < 3 ∨ 3 + (3 : Int).toNat < k →
          out[k]? = ([104, 105, 33, 9, 9, 9, 9, 9] : List UInt8)[k]?) ∧
        out.length = ([104, 105, 33, 9, 9, 9, 9, 9] : List UInt8).length ∧
        cstr (out.drop 3) =
          (([104, 105, 33, 9, 9, 9, 9, 9] : List UInt8).drop 0).take (3 : Int).toNat) ∧
    __vinitStr [9, 9, 9, 9, 104, 0] 0 4 3 = .error .assertFailed :=
  ⟨(vinitStr_spec [104, 105, 33, 9, 9, 9, 9, 9] 3 0 3 (by decide) (by decide)
      (Or.inl (by decide)) (by decide) (Or.inr (by decide))).2 (by decide),
   (vinitStr_spec [9, 9, 9, 9, 104, 0] 0 4 3 (by decide) (by decide)
      (Or.inr ⟨1, by decide, by decide⟩) (by decide) (Or.inl (by decide))).1.2
      ⟨1, by decide, by decide⟩⟩

end Valestd
namespace Valestd

/-- In a buffer that holds a zero, the byte at the length of its string is the
terminator and the bytes before it are the string, none of them zero. -/
theorem cstr_spec : ∀ (l : List UInt8), 0 ∈ l →
    l[(cstr l).length]? = some 0 ∧
      ∀ j, j < (cstr l).length → l[j]? = (cstr l)[j]? ∧ l[j]? ≠ some 0 := by
  intro l
  induction l with
  | nil => intro h; simp at h
  | cons x xs ih =>
    intro hmem
    by_cases hx : x = 0
    · subst hx
      simp [cstr]
    · have hxs : 0 ∈ xs := by
        rcases List.mem_cons.1 hmem with h | h
        · exact absurd h.symm hx
        · exact h
      obtain ⟨h1, h2⟩ := ih hxs
      have hc : cstr (x :: xs) = x :: cstr xs := by
        simp only [cstr]
        rw [List.takeWhile_cons_of_pos (by simpa using hx)]
      rw [hc]
      refine ⟨by simpa using h1, ?_⟩
      intro j hj
      cases j with
      | zero => simp [hx]
      | succ j => simpa using h2 j (by simpa using hj)

/-- The second copy loop of `__vaddStr` stops at the terminator of `b` (index `n`) and
has then written `b[0..n)` at offset `off`. -/
theorem vaddStrLoopB_ok (b : List UInt8) (off n : Nat) (hn0 : b[n]? = some 0)
    (hnz : ∀ j, j < n → b[j]? ≠ some 0) (hmax : n + off ≤ INT_MAX + 1) :
    ∀ (fuel i : Nat) (d : List UInt8), i ≤ n → n < i + fuel → n + off ≤ d.length →
      ∃ out, vaddStrLoopB b off fuel i d = .ok (n, out) ∧ out.length = d.length ∧
        ∀ j, out[j]? = if i + off ≤ j ∧ j < n + off then b[j - off]? else d[j]? := by
  have hnb : n < b.length := by
    rcases List.getElem?_eq_some.1 hn0 with ⟨h, _⟩
    exact h
  intro fuel
  induction fuel with
  | zero => intro i d h1 h2; omega
  | succ fuel ih =>
    intro i d h1 h2 hd
    unfold vaddStrLoopB
    by_cases hi : i < n
    · have hib : i < b.length := by omega
      have hne : b[i] ≠ 0 := by
        intro h0
        exact hnz i hi (by rw [List.getElem?_eq_getElem hib, h0])
      have hov : ¬ (INT_MAX < i + off) := by omega
      have hid : i + off < d.length := by omega
      obtain ⟨out, ho, hl, hj⟩ := ih (i + 1) (d.set (i + off) b[i]) (by omega) (by omega)
        (by simpa using hd)
      refine ⟨out, ?_, by simpa using hl, ?_⟩
      · simp [List.getElem?_eq_getElem hib, hne, hov, hid, ho]
      · intro j
        rw [hj j]
        by_cases hji : j = i + off
        · subst hji
          simp [hi, hid, hib]
        · have hne2 : i + off ≠ j := fun h => hji h.symm
          rw [List.getElem?_set_ne hne2]
          by_cases hlt : j < n + off
          · by_cases hle : i + off ≤ j
            · have : i + 1 + off ≤ j := by omega
              simp [hlt, hle, this]
            · have : ¬ (i + 1 + off ≤ j) := by omega
              simp [hle, this]
          · simp [hlt]
    · have hin : i = n := by omega
      subst hin
      refine ⟨d, ?_, rfl, ?_⟩
      · have h0 : b[i] = 0 := by
          rw [List.getElem?_eq_getElem hnb] at hn0
          exact Option.some.inj hn0
        simp [List.getElem?_eq_getElem hnb, h0]
      · intro j
        have : ¬ (i + off ≤ j ∧ j < i + off) := by omega
        simp [this]

/-- The first copy loop of `__vaddStr` is the second one at offset `0`. -/
theorem vaddStrLoopA_eq_B (a : List UInt8) :
    ∀ (fuel i : Nat) (d : List UInt8), i + fuel ≤ INT_MAX + 1 →
      vaddStrLoopA a fuel i d = vaddStrLoopB a 0 fuel i d := by
  intro fuel
  induction fuel with
  | zero => intro i d _; rfl
  | succ fuel ih =>
    intro i d h
    unfold vaddStrLoopA vaddStrLoopB
    have hov : ¬ (INT_MAX < i) := by omega
    cases hai : a[i]? with
    | none => rfl
    | some c =>
      by_cases hc : c = 0
      · simp [hc]
      · by_cases hid : i < d.length
        · simp [hc, hov, hid, ih (i + 1) (d.set i c) (by omega)]
        · simp [hc, hov, hid]

end Valestd

namespace Valestd

/-- The buffer of `n` bytes `x` followed by a zero: its byte at `j < n` is `x`. -/
theorem replicate_zero_getElem_lt (n : Nat) (x : UInt8) (j : Nat) (hj : j < n) :
    (List.replicate n x ++ [0])[j]? = some x := by
  rw [List.getElem?_append_left (by simpa using hj), List.getElem?_replicate_of_lt hj]

/-- The buffer of `n` bytes `x` followed by a zero: its byte at `n` is the zero. -/
theorem replicate_zero_getElem_end (n : Nat) (x : UInt8) :
    (List.replicate n x ++ [0])[n]? = some 0 := by
  rw [List.getElem?_append_right (by simp)]
  simp

/-- The buffer of `n` bytes `1` followed by a zero holds a string of length `n`. -/
theorem cstr_replicate_one (n : Nat) :
    (cstr (List.replicate n 1 ++ [0])).length = n := by
  have h := cstr_eq_take (List.replicate n 1 ++ [0]) n
    (fun i hi => by rw [replicate_zero_getElem_lt n 1 i hi]; decide)
    (replicate_zero_getElem_end n 1)
  rw [h, List.length_take, List.length_append, List.length_replicate]
  simp

/-- Two strings of `n` bytes each, `n + n` one more than `INT_MAX`, and a destination of
`n + n + 1` bytes: both copy loops of `__vaddStr` finish, and the sum `a_len + b_len`
of the last statement leaves the range of `int`. -/
theorem vaddStr_overflow (n : Nat) (hn : n + n = INT_MAX + 1) :
    __vaddStr (List.replicate n 1 ++ [0]) (List.replicate n 1 ++ [0])
      (List.replicate (n + n + 1) 0) = .error .intOverflow := by
  have hnz : ∀ j, j < n → (List.replicate n (1 : UInt8) ++ [0])[j]? ≠ some 0 := by
    intro j hj
    rw [replicate_zero_getElem_lt n 1 j hj]
    decide
  have hlen : (List.replicate (n + n + 1) (0 : UInt8)).length = n + n + 1 :=
    List.length_replicate _ _
  obtain ⟨d1, h1, hl1, _⟩ := vaddStrLoopB_ok (List.replicate n 1 ++ [0]) 0 n
    (replicate_zero_getElem_end n 1) hnz (by omega) (INT_MAX + 1) 0
    (List.replicate (n + n + 1) 0) (Nat.zero_le n) (by omega) (by omega)
  rw [← vaddStrLoopA_eq_B _ (INT_MAX + 1) 0 _ (by omega)] at h1
  obtain ⟨d2, h2, _, _⟩ := vaddStrLoopB_ok (List.replicate n 1 ++ [0]) n n
    (replicate_zero_getElem_end n 1) hnz (by omega) (INT_MAX + 1) 0 d1 (Nat.zero_le n)
    (by omega) (by omega)
  have hov : INT_MAX < n + n := by omega
  simp [__vaddStr, h1, h2, hov]

/-- Claim C9, counterexample. Two zero-terminated strings of `2^30` bytes each (each
length in the range of `int`) and a separate destination of `2^31 + 1` bytes: the
function does not produce the concatenation, because `a_len + b_len = 2^31` leaves the
range of `int` at `dest[a_len + b_len] = 0`. -/
theorem vaddStr_sum_overflows :
    (0 : UInt8) ∈ List.replicate 1073741824 1 ++ [0] ∧
    (cstr (List.replicate 1073741824 1 ++ [0])).length = 1073741824 ∧
    (cstr (List.replicate 1073741824 1 ++ [0])).length +
        (cstr (List.replicate 1073741824 1 ++ [0])).length + 1 ≤
      (List.replicate (1073741824 + 1073741824 + 1) (0 : UInt8)).length ∧
    __vaddStr (List.replicate 1073741824 1 ++ [0]) (List.replicate 1073741824 1 ++ [0])
      (List.replicate (1073741824 + 1073741824 + 1) 0) = .error .intOverflow :=
  ⟨List.mem_append_right _ (List.mem_singleton.2 rfl),
   cstr_replicate_one 1073741824,
   by rw [cstr_replicate_one, List.length_replicate],
   vaddStr_overflow 1073741824 (by decide)⟩

/-- Claim C9, amended. For zero-terminated `a` (length `m`) and `b` (length `n`) with
`m + n` in the range of `int` (`m + n ≤ INT_MAX`), and a separate destination of at
least `m + n + 1` bytes: `__vaddStr` returns with `dest[i] = a[i]` for `i < m`,
`dest[m + j] = b[j]` for `j < n`, `dest[m + n] = 0`, every byte after index `m + n`
unchanged; the destination then holds the zero-terminated concatenation of `a` and
`b`. -/
theorem vaddStr_spec (a b dest : List UInt8) (ha : 0 ∈ a) (hb : 0 ∈ b)
    (hsum : (cstr a).length + (cstr b).length ≤ INT_MAX)
    (hdest : (cstr a).length + (cstr b).length + 1 ≤ dest.length) :
    ∃ out, __vaddStr a b dest = .ok out ∧
      (∀ i, i < (cstr a).length → out[i]? = a[i]?) ∧
      (∀ j, j < (cstr b).length → out[(cstr a).length + j]? = b[j]?) ∧
      out[(cstr a).length + (cstr b).length]? = some 0 ∧
      (∀ k, (cstr a).length + (cstr b).length < k → out[k]? = dest[k]?) ∧
      out.length = dest.length ∧
      cstr out = cstr a ++ cstr b := by
  obtain ⟨ha0, haj⟩ := cstr_spec a ha
  obtain ⟨hb0, hbj⟩ := cstr_spec b hb
  generalize hm : (cstr a).length = m at *
  generalize hn : (cstr b).length = n at *
  obtain ⟨d1, h1, hl1, hg1⟩ := vaddStrLoopB_ok a 0 m ha0 (fun j hj => (haj j hj).2)
    (by omega) (INT_MAX + 1) 0 dest (Nat.zero_le m) (by omega) (by omega)
  rw [← vaddStrLoopA_eq_B a (INT_MAX + 1) 0 dest (by omega)] at h1
  obtain ⟨d2, h2, hl2, hg2⟩ := vaddStrLoopB_ok b m n hb0 (fun j hj => (hbj j hj).2)
    (by omega) (INT_MAX + 1) 0 d1 (Nat.zero_le n) (by omega) (by omega)
  have hov : ¬ (INT_MAX < m + n) := by omega
  have hlt : m + n < d2.length := by omega
  have e1 : ∀ i, i < m → (d2.set (m + n) 0)[i]? = a[i]? := by
    intro i hi
    rw [List.getElem?_set_ne (by omega), hg2 i, hg1 i]
    have : ¬ (0 + m ≤ i ∧ i < n + m) := by omega
    simp [this, hi]
  have e2 : ∀ j, j < n → (d2.set (m + n) 0)[m + j]? = b[j]? := by
    intro j hj
    rw [List.getElem?_set_ne (by omega), hg2 (m + j)]
    have : 0 + m ≤ m + j ∧ m + j < n + m := by omega
    simp [this]
  have e3 : (d2.set (m + n) 0)[m + n]? = some 0 := by
    simp [List.getElem?_set, hlt]
  refine ⟨d2.set (m + n) 0, ?_, e1, e2, e3, ?_, by simp [hl2, hl1], ?_⟩
  · simp [__vaddStr, h1, h2, hov, hlt]
  · intro k hk
    rw [List.getElem?_set_ne (by omega), hg2 k, hg1 k]
    rw [if_neg (by omega), if_neg (by omega)]
  · have hnz : ∀ i, i < m + n → (d2.set (m + n) 0)[i]? ≠ some 0 := by
      intro i hi
      by_cases him : i < m
      · rw [e1 i him]
        exact (haj i him).2
      · obtain ⟨j, rfl⟩ : ∃ j, i = m + j := ⟨i - m, by omega⟩
        rw [e2 j (by omega)]
        exact (hbj j (by omega)).2
    rw [cstr_eq_take _ (m + n) hnz e3]
    apply List.ext_getElem?
    intro i
    by_cases hi : i < m + n
    · rw [List.getElem?_take_of_lt hi]
      by_cases him : i < m
      · rw [e1 i him, List.getElem?_append_left (by omega)]
        exact (haj i him).1
      · obtain ⟨j, rfl⟩ : ∃ j, i = m + j := ⟨i - m, by omega⟩
        rw [e2 j (by omega), List.getElem?_append_right (by omega)]
        rw [(hbj j (by omega)).1]
        congr 1
        omega
    · rw [List.getElem?_take_eq_none (by omega)]
      symm
      apply List.getElem?_eq_none
      simp
      omega

/-- The theorem `vaddStr_spec` at `a = "ab"`, `b = "c"` and a destination of 5 bytes. -/
theorem vaddStr_spec_witness :
    ∃ out, __vaddStr [97, 98, 0, 7] [99, 0] [9, 9, 9, 9, 9] = .ok out ∧
      (∀ i, i < (cstr [97, 98, 0, 7]).length → out[i]? = ([97, 98, 0, 7] : List UInt8)[i]?) ∧
      (∀ j, j < (cstr [99, 0]).length →
        out[(cstr [97, 98, 0, 7]).length + j]? = ([99, 0] : List UInt8)[j]?) ∧
      out[(cstr [97, 98, 0, 7]).length + (cstr [99, 0]).length]? = some 0 ∧
      (∀ k, (cstr [97, 98, 0, 7]).length + (cstr [99, 0]).length < k →
        out[k]? = ([9, 9, 9, 9, 9] : List UInt8)[k]?) ∧
      out.length = ([9, 9, 9, 9, 9] : List UInt8).length ∧
      cstr out = cstr [97, 98, 0, 7] ++ cstr [99, 0] :=
  vaddStr_spec [97, 98, 0, 7] [99, 0] [9, 9, 9, 9, 9] (by decide) (by decide) (by decide)
    (by decide)

end Valestd

namespace Valestd

/-- The loop of `__veqStr` walks over a common zero-free prefix and answers at the
first position `k` where the bytes differ or are both the terminator. -/
theorem veqStrLoop_run (a b : List UInt8) (k : Nat) (x y : UInt8)
    (hak : a[k]? = some x) (hbk : b[k]? = some y) (hstop : x ≠ y ∨ x = 0)
    (hpre : ∀ j, j < k → a[j]? = b[j]? ∧ a[j]? ≠ some 0 ∧ a[j]? ≠ none) :
    ∀ (fuel i : Nat), i ≤ k → k < i + fuel →
      veqStrLoop a b fuel i = .ok (if x ≠ y then FALSE else TRUE) := by
  intro fuel
  induction fuel with
  | zero => intro i h1 h2; omega
  | succ fuel ih =>
    intro i h1 h2
    unfold veqStrLoop
    by_cases hi : i < k
    · obtain ⟨e1, e2, e3⟩ := hpre i hi
      cases hai : a[i]? with
      | none => exact absurd hai e3
      | some c =>
        have hbi : b[i]? = some c := by rw [← e1, hai]
        have hc : c ≠ 0 := by
          intro h
          exact e2 (by rw [hai, h])
        simp [hbi, hc, ih (i + 1) (by omega) (by omega)]
    · have hik : i = k := by omega
      subst hik
      rcases hstop with h | h
      · simp [hak, hbk, h]
      · by_cases hxy : x = y
        · subst hxy
          subst h
          simp [hak, hbk]
        · simp [hak, hbk, hxy]

/-- Two zero-terminated buffers that agree before `k`, with `k` inside the string of
`a`, have `k` inside the string of `b` too. -/
theorem cstr_prefix_bound (a b : List UInt8) (hb : 0 ∈ b) (k : Nat)
    (hk : k ≤ (cstr a).length) (ha : 0 ∈ a)
    (hpre : ∀ i, i < k → a[i]? = b[i]?) : k ≤ (cstr b).length := by
  by_contra hlt
  have hn : (cstr b).length < k := by omega
  have h1 := (cstr_spec b hb).1
  have h2 := ((cstr_spec a ha).2 (cstr b).length (by omega)).2
  rw [hpre _ hn] at h2
  exact h2 h1

/-- Two zero-terminated buffers hold the same string iff they agree at every position
up to and including the terminator of the first. -/
theorem cstr_eq_iff (a b : List UInt8) (ha : 0 ∈ a) (hb : 0 ∈ b) :
    cstr a = cstr b ↔ ∀ i, i ≤ (cstr a).length → a[i]? = b[i]? := by
  obtain ⟨ha0, haj⟩ := cstr_spec a ha
  obtain ⟨hb0, hbj⟩ := cstr_spec b hb
  constructor
  · intro h i hi
    by_cases hlt : i < (cstr a).length
    · rw [(haj i hlt).1, (hbj i (by rw [← h]; exact hlt)).1, h]
    · have : i = (cstr a).length := by omega
      subst this
      rw [ha0]
      rw [h]
      exact hb0.symm
  · intro h
    have hbz : ∀ i, i < (cstr a).length → b[i]? ≠ some 0 := by
      intro i hi
      rw [← h i (by omega)]
      exact (haj i hi).2
    have hb0' : b[(cstr a).length]? = some 0 := by
      rw [← h _ (Nat.le_refl _)]
      exact ha0
    refine (cstr_eq_take a _ (fun i hi => (haj i hi).2) ha0).trans
      (Eq.trans ?_ (cstr_eq_take b _ hbz hb0').symm)
    apply List.ext_getElem?
    intro i
    by_cases hi : i < (cstr a).length
    · rw [List.getElem?_take_of_lt hi, List.getElem?_take_of_lt hi]
      exact h i (by omega)
    · rw [List.getElem?_take_eq_none (by omega), List.getElem?_take_eq_none (by omega)]

/-- The loop of `__veqStr` on two buffers that agree, without a zero, at every position
the `int` counter can take: the counter leaves the range of `int`. -/
theorem veqStrLoop_overflow (a b : List UInt8) :
    ∀ (fuel i : Nat),
      (∀ j, i ≤ j → j < i + fuel → ∃ c, a[j]? = some c ∧ b[j]? = some c ∧ c ≠ 0) →
      veqStrLoop a b fuel i = .error .intOverflow := by
  intro fuel
  induction fuel with
  | zero => intro i _; rfl
  | succ fuel ih =>
    intro i hall
    obtain ⟨c, hac, hbc, hc⟩ := hall i (Nat.le_refl i) (by omega)
    unfold veqStrLoop
    simp [hac, hbc, hc, ih (i + 1) (fun j h1 h2 => hall j (by omega) (by omega))]

/-- Claim C8, counterexample. On two equal zero-terminated strings of `2^31` bytes
`__veqStr` does not return `TRUE`: the `int` counter `i` leaves the range of `int`
before the terminator is reached. -/
theorem veqStr_long_overflows :
    (0 : UInt8) ∈ List.replicate 2147483648 1 ++ [0] ∧
    __veqStr (List.replicate 2147483648 1 ++ [0]) (List.replicate 2147483648 1 ++ [0]) =
      .error .intOverflow :=
  ⟨List.mem_append_right _ (List.mem_singleton.2 rfl),
   veqStrLoop_overflow _ _ (INT_MAX + 1) 0 (fun j _ hj =>
     ⟨1, replicate_zero_getElem_lt 2147483648 1 j (by simp only [INT_MAX] at hj; omega),
      replicate_zero_getElem_lt 2147483648 1 j (by simp only [INT_MAX] at hj; omega),
      by decide⟩)⟩

/-- Claim C8, amended. For zero-terminated `a` and `b` of which at least one is at most
`INT_MAX` bytes long: `__veqStr` returns, with `TRUE` if the two strings have the same
content and `FALSE` otherwise; having the same content is agreeing at every position
up to and including the terminator of `a`; and when the strings first differ at
position `k`, the answer `FALSE` is reached even if no byte after position `k` can be
read. -/
theorem veqStr_spec (a b : List UInt8) (ha : 0 ∈ a) (hb : 0 ∈ b)
    (hlen : (cstr a).length ≤ INT_MAX ∨ (cstr b).length ≤ INT_MAX) :
    __veqStr a b = .ok (if cstr a = cstr b then TRUE else FALSE) ∧
    (cstr a = cstr b ↔ ∀ i, i ≤ (cstr a).length → a[i]? = b[i]?) ∧
    (∀ k, k ≤ (cstr a).length → (∀ i, i < k → a[i]? = b[i]?) → a[k]? ≠ b[k]? →
      __veqStr (a.take (k + 1)) (b.take (k + 1)) = .ok FALSE) := by
  obtain ⟨ha0, haj⟩ := cstr_spec a ha
  obtain ⟨hb0, hbj⟩ := cstr_spec b hb
  have hdiff : ∀ (a' b' : List UInt8) (k : Nat), k ≤ (cstr a).length →
      (∀ i, i ≤ k → a'[i]? = a[i]?) → (∀ i, i ≤ k → b'[i]? = b[i]?) →
      (∀ i, i < k → a[i]? = b[i]?) → a[k]? ≠ b[k]? →
      __veqStr a' b' = .ok FALSE := by
    intro a' b' k hk hpa hpb hpre hne
    have hkb : k ≤ (cstr b).length := cstr_prefix_bound a b hb k hk ha hpre
    have hka : k < a.length := by
      rcases List.getElem?_eq_some.1 ha0 with ⟨h, _⟩
      omega
    have hkb2 : k < b.length := by
      rcases List.getElem?_eq_some.1 hb0 with ⟨h, _⟩
      omega
    have hxy : a[k] ≠ b[k] := by
      intro h
      apply hne
      rw [List.getElem?_eq_getElem hka, List.getElem?_eq_getElem hkb2, h]
    have := veqStrLoop_run a' b' k a[k] b[k]
      (by rw [hpa k (Nat.le_refl k), List.getElem?_eq_getElem hka])
      (by rw [hpb k (Nat.le_refl k), List.getElem?_eq_getElem hkb2])
      (Or.inl hxy)
      (fun j hj => by
        rw [hpa j (by omega), hpb j (by omega)]
        refine ⟨hpre j hj, (haj j (by omega)).2, ?_⟩
        rw [List.getElem?_eq_getElem (by omega)]
        simp)
      (INT_MAX + 1) 0 (Nat.zero_le k) (by rcases hlen with h | h <;> omega)
    simpa [__veqStr, hxy] using this
  refine ⟨?_, cstr_eq_iff a b ha hb, ?_⟩
  · by_cases heq : cstr a = cstr b
    · have hall := (cstr_eq_iff a b ha hb).1 heq
      have hsame : (cstr a).length = (cstr b).length := congrArg List.length heq
      have := veqStrLoop_run a b (cstr a).length 0 0 ha0
        (by rw [← hall _ (Nat.le_refl _)]; exact ha0) (Or.inr rfl)
        (fun j hj => by
          refine ⟨hall j (by omega), (haj j hj).2, ?_⟩
          have hja : j < a.length := by
            rcases List.getElem?_eq_some.1 ha0 with ⟨h, _⟩
            omega
          rw [List.getElem?_eq_getElem hja]
          simp)
        (INT_MAX + 1) 0 (Nat.zero_le _) (by rcases hlen with h | h <;> omega)
      simpa [__veqStr, heq] using this
    · have hex : ∃ i, i ≤ (cstr a).length ∧ a[i]? ≠ b[i]? := by
        by_contra hno
        apply heq
        rw [cstr_eq_iff a b ha hb]
        intro i hi
        by_contra hne
        exact hno ⟨i, hi, hne⟩
      classical
      have hk := Nat.find_spec hex
      have hmin := fun i (hi : i < Nat.find hex) => Nat.find_min hex hi
      have hpre : ∀ i, i < Nat.find hex → a[i]? = b[i]? := by
        intro i hi
        by_contra hne
        exact hmin i hi ⟨by omega, hne⟩
      rw [if_neg heq]
      exact hdiff a b (Nat.find hex) hk.1 (fun _ _ => rfl) (fun _ _ => rfl) hpre hk.2
  · intro k hk hpre hne
    exact hdiff _ _ k hk (fun i hi => List.getElem?_take_of_lt (by omega))
      (fun i hi => List.getElem?_take_of_lt (by omega)) hpre hne

/-- The theorem `veqStr_spec` at `a = "hi"`, `b = "hj"`. -/
theorem veqStr_spec_witness :
    __veqStr [104, 105, 0, 1] [104, 106, 0] =
        .ok (if cstr [104, 105, 0, 1] = cstr [104, 106, 0] then TRUE else FALSE) ∧
    (cstr [104, 105, 0, 1] = cstr [104, 106, 0] ↔
      ∀ i, i ≤ (cstr [104, 105, 0, 1]).length →
        ([104, 105, 0, 1] : List UInt8)[i]? = ([104, 106, 0] : List UInt8)[i]?) ∧
    (∀ k, k ≤ (cstr [104, 105, 0, 1]).length →
      (∀ i, i < k → ([104, 105, 0, 1] : List UInt8)[i]? = ([104, 106, 0] : List UInt8)[i]?) →
      ([104, 105, 0, 1] : List UInt8)[k]? ≠ ([104, 106, 0] : List UInt8)[k]? →
      __veqStr (([104, 105, 0, 1] : List UInt8).take (k + 1))
        (([104, 106, 0] : List UInt8).take (k + 1)) = .ok FALSE) :=
  veqStr_spec [104, 105, 0, 1] [104, 106, 0] (by decide) (by decide) (Or.inl (by decide))

end Valestd

/-! # Theorems on the expression translator -/

namespace Midas

/-- Claim C5. A `LocalLoad` of a local whose slot is known emits, after its flare, one
load from the slot's address and returns the value of that load. If the local's type
is not `INLINE`, exactly one `adjustRc` of `+1` on the loaded value follows; if it is
`INLINE`, nothing follows the load: no refcount adjustment is emitted. -/
theorem localLoad_spec (h : Delegates) (g : GlobalState) (local_ : Local) (localName : String)
    (s : State) (localAddr : LVal) (hx : s.getLocalAddr local_.id = some localAddr) :
    translateExpression h g (.LocalLoad local_ localName) s =
      .ok (.inst s.nextId,
        { localAddrs := s.localAddrs,
          instrs := s.instrs ++ [.flare "LocalLoad", .load s.nextId localAddr localName] ++
            (if local_.type.location = Location.INLINE then []
             else [.adjustRc (.inst s.nextId) local_.type 1]),
          nextId := s.nextId + 1 }) := by
  have hx0 : (buildFlare "LocalLoad" s).getLocalAddr local_.id = some localAddr := hx
  by_cases hloc : local_.type.location = Location.INLINE
  · simp only [translateExpression, hx0, hloc]
    simp [LLVMBuildLoad, State.emitValue, buildFlare, State.emit]
  · simp only [translateExpression, hx0, hloc]
    simp [LLVMBuildLoad, State.emitValue, buildFlare, State.emit, adjustRc]

/-- Claim C6, counterexample. Translating `Return (ConstantI64 5)` from the fresh state
yields the value of the emitted `ret` instruction (instruction 1), and that value is
not the marker `makeNever()`. -/
theorem return_value_not_never :
    translateExpression noDelegates emptyGlobalState (.Return (.ConstantI64 5)) emptyState =
      .ok (.inst 1,
        { localAddrs := [],
          instrs := [.flare "Return", .flare "ConstantI64", .makeConstIntExpr 0 64 5,
            .ret 1 (.inst 0)],
          nextId := 2 }) ∧
    LVal.inst 1 ≠ makeNever :=
  ⟨rfl, by decide⟩

/-- Claim C6, amended. A `Return` translates its inner expression, emits one `ret`
instruction that uses the inner expression's value, and yields the value of that
emitted `ret` instruction (the result of `LLVMBuildRet`), which is not the marker
`makeNever()` that push-local and the array-consuming destroys yield. -/
theorem return_spec (h : Delegates) (g : GlobalState) (sourceExpr : Expression) (s : State)
    (value : LVal) (s1 : State)
    (hsrc : translateExpression h g sourceExpr (buildFlare "Return" s) = .ok (value, s1)) :
    translateExpression h g (.Return sourceExpr) s =
      .ok (.inst s1.nextId,
        { s1 with instrs := s1.instrs ++ [.ret s1.nextId value], nextId := s1.nextId + 1 }) ∧
    LVal.inst s1.nextId ≠ makeNever := by
  constructor
  · simp [translateExpression, hsrc, bind, Except.bind, pure, Except.pure, LLVMBuildRet,
      State.emitValue]
  · simp [makeNever]

/-- Translating `init ++ [last]` is translating `init`, then `last` from the state
reached, and appending its value. -/
theorem translateExpressions_append (h : Delegates) (g : GlobalState) (last : Expression) :
    ∀ (init : List Expression) (s : State),
      translateExpressions h g (init ++ [last]) s =
        match translateExpressions h g init s with
        | .error e => .error e
        | .ok (values, s1) =>
          match translateExpression h g last s1 with
          | .error e => .error e
          | .ok (value, s2) => .ok (values ++ [value], s2) := by
  intro init
  induction init with
  | nil =>
    intro s
    simp only [List.nil_append, translateExpressions, bind, Except.bind, pure, Except.pure]
    cases translateExpression h g last s <;> rfl
  | cons e rest ih =>
    intro s
    rw [List.cons_append]
    simp only [translateExpressions, bind, Except.bind, pure, Except.pure]
    cases he : translateExpression h g e s with
    | error err => rfl
    | ok r =>
      obtain ⟨v, s1⟩ := r
      simp only [ih s1]
      cases hr : translateExpressions h g rest s1 with
      | error err => rfl
      | ok r2 =>
        obtain ⟨vs, s2⟩ := r2
        simp only []
        cases translateExpression h g last s2 <;> rfl

/-- Claim C7. A `Block` with at least one sub-expression (`init ++ [last]`) translates
the earlier sub-expressions in list order, then the last one from the state they
leave; its result is exactly the result of translating the last sub-expression (value
and state), whatever values the earlier ones gave; an abort of any of them is the
block's abort. -/
theorem block_spec (h : Delegates) (g : GlobalState) (init : List Expression)
    (last : Expression) (s : State) :
    translateExpression h g (.Block (init ++ [last])) s =
      match translateExpressions h g init (buildFlare "Block" s) with
      | .error e => .error e
      | .ok (_, s1) => translateExpression h g last s1 := by
  simp only [translateExpression, translateExpressions_append, bind, Except.bind, pure,
    Except.pure]
  cases translateExpressions h g init (buildFlare "Block" s) with
  | error err => rfl
  | ok r =>
    obtain ⟨vs, s1⟩ := r
    simp only []
    cases translateExpression h g last s1 with
    | error err => rfl
    | ok r2 =>
      obtain ⟨v, s2⟩ := r2
      simp
end Midas

namespace Midas

/-- Claim C2. In both array-consuming destroys (fixed-length first, variable-length
second), once the array and the consumer are translated, the code after the loop
depends on the array's ownership only: `OWN` emits one `adjustRc` of `-1` on the array,
then `freeConcrete` on it; `SHARE` emits no `adjustRc`, only `freeConcrete`; `BORROW`
aborts. When it does not abort, one `discard` of the consumer follows the
`freeConcrete`, and the result is `makeNever()`. -/
theorem destroy_tail_spec (h : Delegates) (g : GlobalState) (consumerType arrayType : Reference)
    (arrayReferend : KnownSizeArrayT) (arrayExpr consumerExpr : Expression) (s : State) :
    (∀ (arrayWrapperLE consumerLE : LVal) (s1 s3 : State),
      translateExpression h g arrayExpr
          (buildFlare "DestroyKnownSizeArrayIntoFunction" s) = .ok (arrayWrapperLE, s1) →
      translateExpression h g consumerExpr
          (getKnownSizeArrayContentsPtr arrayWrapperLE s1).2 = .ok (consumerLE, s3) →
      translateExpression h g
          (.DestroyKnownSizeArrayIntoFunction consumerType arrayReferend arrayExpr
            consumerExpr arrayType) s =
        match arrayType.ownership with
        | .OWN => .ok (makeNever,
            { localAddrs := s3.localAddrs,
              instrs := s3.instrs ++
                [.foreachArrayElement (LLVMConstInt 64 arrayReferend.size) (.inst s1.nextId)
                  (.inst s3.nextId)
                  (consumeBody consumerType (.inst s1.nextId) consumerLE s3.nextId)] ++
                [.adjustRc arrayWrapperLE arrayType (-1),
                 .freeConcrete arrayWrapperLE arrayType,
                 .discard consumerType consumerLE],
              nextId := s3.nextId + 4 })
        | .SHARE => .ok (makeNever,
            { localAddrs := s3.localAddrs,
              instrs := s3.instrs ++
                [.foreachArrayElement (LLVMConstInt 64 arrayReferend.size) (.inst s1.nextId)
                  (.inst s3.nextId)
                  (consumeBody consumerType (.inst s1.nextId) consumerLE s3.nextId)] ++
                [.freeConcrete arrayWrapperLE arrayType,
                 .discard consumerType consumerLE],
              nextId := s3.nextId + 4 })
        | .BORROW => .error .assertFailed) ∧
    (∀ (arrayWrapperLE consumerLE : LVal) (s1 s3 : State),
      translateExpression h g arrayExpr
          (buildFlare "DestroyUnknownSizeArray" s) = .ok (arrayWrapperLE, s1) →
      translateExpression h g consumerExpr
          (getUnknownSizeArrayLength (.inst s1.nextId)
            (getUnknownSizeArrayContentsPtr arrayWrapperLE s1).2).2 = .ok (consumerLE, s3) →
      translateExpression h g
          (.DestroyUnknownSizeArray consumerType arrayExpr consumerExpr arrayType) s =
        match arrayType.ownership with
        | .OWN => .ok (makeNever,
            { localAddrs := s3.localAddrs,
              instrs := s3.instrs ++
                [.foreachArrayElement (.inst (s1.nextId + 1)) (.inst s1.nextId)
                  (.inst s3.nextId)
                  (consumeBody consumerType (.inst s1.nextId) consumerLE s3.nextId)] ++
                [.adjustRc arrayWrapperLE arrayType (-1),
                 .freeConcrete arrayWrapperLE arrayType,
                 .discard consumerType consumerLE],
              nextId := s3.nextId + 4 })
        | .SHARE => .ok (makeNever,
            { localAddrs := s3.localAddrs,
              instrs := s3.instrs ++
                [.foreachArrayElement (.inst (s1.nextId + 1)) (.inst s1.nextId)
                  (.inst s3.nextId)
                  (consumeBody consumerType (.inst s1.nextId) consumerLE s3.nextId)] ++
                [.freeConcrete arrayWrapperLE arrayType,
                 .discard consumerType consumerLE],
              nextId := s3.nextId + 4 })
        | .BORROW => .error .assertFailed) := by
  constructor
  · intro aw c s1 s3 h1 h2
    have h2a : translateExpression h g consumerExpr
        { localAddrs := s1.localAddrs,
          instrs := s1.instrs ++ [.getKnownSizeArrayContentsPtr s1.nextId aw],
          nextId := s1.nextId + 1 } = .ok (c, s3) := h2
    simp only [translateExpression, h1, bind, Except.bind, getKnownSizeArrayContentsPtr,
      State.emitValue, h2a]
    cases arrayType.ownership <;>
      simp [pure, Except.pure, foreachArrayElement, adjustRc, freeConcrete, discard,
        State.emit, acquireReference, LLVMBuildGEP, LLVMBuildLoad, buildInterfaceCall,
        State.emitValue, throw, throwThe, MonadExceptOf.throw, consumeBody]
  · intro aw c s1 s3 h1 h2
    have h2a : translateExpression h g consumerExpr
        { localAddrs := s1.localAddrs,
          instrs := s1.instrs ++ [.getUnknownSizeArrayContentsPtr s1.nextId aw] ++
            [.getUnknownSizeArrayLength (s1.nextId + 1) (.inst s1.nextId)],
          nextId := s1.nextId + 1 + 1 } = .ok (c, s3) := h2
    simp only [translateExpression, h1, bind, Except.bind, getUnknownSizeArrayContentsPtr,
      getUnknownSizeArrayLength, State.emitValue, h2a]
    cases arrayType.ownership <;>
      simp [pure, Except.pure, foreachArrayElement, adjustRc, freeConcrete, discard,
        State.emit, acquireReference, LLVMBuildGEP, LLVMBuildLoad, buildInterfaceCall,
        State.emitValue, throw, throwThe, MonadExceptOf.throw, consumeBody]

end Midas

namespace Midas

/-- Claim C1. For a fixed-length array of length `N = arrayReferend.size` (within 64
bits) whose ownership is `OWN` or `SHARE`, and once the array and the consumer are
translated, `DestroyKnownSizeArrayIntoFunction` emits one loop over the contents
pointer of the array with the constant length `N`, then (for `OWN`) the `adjustRc`,
then exactly one `freeConcrete` on the array, then the `discard` of the consumer. The
loop runs its body once per index `0, 1, ..., N - 1` in ascending order, and the body
is: one `acquireReference` on the consumer, the address of the element at the loop
index, the load of that element, and one call with exactly the two arguments
(consumer, loaded element). -/
theorem destroyKnownSizeArray_spec (h : Delegates) (g : GlobalState)
    (consumerType arrayType : Reference) (arrayReferend : KnownSizeArrayT)
    (arrayExpr consumerExpr : Expression) (s : State)
    (arrayWrapperLE consumerLE : LVal) (s1 s3 : State)
    (harray : translateExpression h g arrayExpr
      (buildFlare "DestroyKnownSizeArrayIntoFunction" s) = .ok (arrayWrapperLE, s1))
    (hconsumer : translateExpression h g consumerExpr
      (getKnownSizeArrayContentsPtr arrayWrapperLE s1).2 = .ok (consumerLE, s3))
    (hown : arrayType.ownership ≠ Ownership.BORROW)
    (hsize : arrayReferend.size < 2 ^ 64) :
    translateExpression h g
        (.DestroyKnownSizeArrayIntoFunction consumerType arrayReferend arrayExpr
          consumerExpr arrayType) s =
      .ok (makeNever,
        { localAddrs := s3.localAddrs,
          instrs := s3.instrs ++
            [.foreachArrayElement (.constInt 64 arrayReferend.size) (.inst s1.nextId)
              (.inst s3.nextId)
              (consumeBody consumerType (.inst s1.nextId) consumerLE s3.nextId)] ++
            (if arrayType.ownership = Ownership.OWN
              then [.adjustRc arrayWrapperLE arrayType (-1)] else []) ++
            [.freeConcrete arrayWrapperLE arrayType, .discard consumerType consumerLE],
          nextId := s3.nextId + 4 }) ∧
    (getKnownSizeArrayContentsPtr arrayWrapperLE s1).1 = .inst s1.nextId ∧
    (Instr.foreachArrayElement (.constInt 64 arrayReferend.size) (.inst s1.nextId)
        (.inst s3.nextId)
        (consumeBody consumerType (.inst s1.nextId) consumerLE s3.nextId)).iterations =
      some ((List.range arrayReferend.size).map (fun i =>
        (i, [.acquireReference consumerType consumerLE,
             .gep (s3.nextId + 1) (.inst s1.nextId) [constI64LE 0, .inst s3.nextId]
               "elementPtr",
             .load (s3.nextId + 2) (.inst (s3.nextId + 1)) "element",
             .buildInterfaceCall (s3.nextId + 3) [consumerLE, .inst (s3.nextId + 2)] 0 0]))) := by
  have hmod : arrayReferend.size % 2 ^ 64 = arrayReferend.size := Nat.mod_eq_of_lt hsize
  refine ⟨?_, rfl, rfl⟩
  have h2a : translateExpression h g consumerExpr
      { localAddrs := s1.localAddrs,
        instrs := s1.instrs ++ [.getKnownSizeArrayContentsPtr s1.nextId arrayWrapperLE],
        nextId := s1.nextId + 1 } = .ok (consumerLE, s3) := hconsumer
  simp only [translateExpression, harray, bind, Except.bind, getKnownSizeArrayContentsPtr,
    State.emitValue, h2a]
  cases ho : arrayType.ownership with
  | BORROW => exact absurd ho hown
  | OWN =>
    simp [pure, Except.pure, foreachArrayElement, adjustRc, freeConcrete, discard,
      State.emit, acquireReference, LLVMBuildGEP, LLVMBuildLoad, buildInterfaceCall,
      State.emitValue, consumeBody, LLVMConstInt, hmod]
    exact hsize
  | SHARE =>
    simp [pure, Except.pure, foreachArrayElement, adjustRc, freeConcrete, discard,
      State.emit, acquireReference, LLVMBuildGEP, LLVMBuildLoad, buildInterfaceCall,
      State.emitValue, consumeBody, LLVMConstInt, hmod]
    exact hsize

/-- Claim C3. For a `StructToInterfaceUpcast` whose source struct type is not `INLINE`,
with the source translated and the registry holding the struct, its edge for the
interface and the table of that edge: the result is the value of the second of two
`insertValue` instructions; its component 0 is the `getControlBlockPtr` of the
translated source; its component 1 is the table the registry holds for the edge found
in the struct looked up by `sourceStructId` (so named) under the interface name
`targetInterfaceRef` (so named). -/
theorem structToInterfaceUpcast_spec (h : Delegates) (g : GlobalState)
    (sourceExpr : Expression) (sourceStructType : Reference)
    (sourceStructId targetInterfaceRef : Name) (s : State)
    (sourceLE : LVal) (s1 : State) (interfaceRefLT : LType) (structDefM : StructDefinition)
    (edge : Edge) (tablePtrLE : LVal)
    (hsrc : translateExpression h g sourceExpr (buildFlare "StructToInterfaceUpcast" s)
      = .ok (sourceLE, s1))
    (hloc : sourceStructType.location ≠ Location.INLINE)
    (hreft : g.getInterfaceRefStruct targetInterfaceRef = some interfaceRefLT)
    (hstruct : g.program.getStruct sourceStructId = some structDefM)
    (hedge : structDefM.getEdgeForInterface targetInterfaceRef = some edge)
    (htable : g.getInterfaceTablePtr edge = some tablePtrLE) :
    ∃ s2, translateExpression h g
        (.StructToInterfaceUpcast sourceExpr sourceStructType sourceStructId
          targetInterfaceRef) s = .ok (.inst (s1.nextId + 2), s2) ∧
      s2.instrs = s1.instrs ++
        [.getControlBlockPtr s1.nextId sourceLE sourceStructType,
         .insertValue (s1.nextId + 1) (.undef interfaceRefLT) (.inst s1.nextId) 0
           "interfaceRefWithOnlyObj",
         .insertValue (s1.nextId + 2) (.inst (s1.nextId + 1)) tablePtrLE 1 "interfaceRef"] ∧
      s2.component (.inst (s1.nextId + 2)) 0 = some (.inst s1.nextId) ∧
      s2.component (.inst (s1.nextId + 2)) 1 = some tablePtrLE ∧
      structDefM.name = sourceStructId ∧
      edge.interfaceName = targetInterfaceRef ∧
      (edge, tablePtrLE) ∈ g.interfaceTablePtrs := by
  refine ⟨{ localAddrs := s1.localAddrs,
            instrs := s1.instrs ++
              [.getControlBlockPtr s1.nextId sourceLE sourceStructType,
               .insertValue (s1.nextId + 1) (.undef interfaceRefLT) (.inst s1.nextId) 0
                 "interfaceRefWithOnlyObj",
               .insertValue (s1.nextId + 2) (.inst (s1.nextId + 1)) tablePtrLE 1
                 "interfaceRef"],
            nextId := s1.nextId + 3 }, ?_, rfl, ?_, ?_, ?_, ?_, ?_⟩
  · simp [translateExpression, hsrc, bind, Except.bind, hloc, hreft, hstruct, hedge, htable,
      pure, Except.pure, getControlBlockPtr, LLVMBuildInsertValue, State.emitValue]
  · simp [State.component, componentOf]
  · simp [State.component, componentOf]
  · have := List.find?_some hstruct
    simpa using this
  · have := List.find?_some hedge
    simpa using this
  · simp only [GlobalState.getInterfaceTablePtr, Option.map_eq_some'] at htable
    obtain ⟨p, hp, hp2⟩ := htable
    have h1 := List.find?_some hp
    have h2 := List.mem_of_find?_eq_some hp
    simp only [decide_eq_true_eq] at h1
    rw [← h1, ← hp2]
    exact h2

end Midas

namespace Midas

/-- A run that has returned executes nothing more. -/
theorem exec_halted (ext : Instr → Machine → Option Machine) (code : List Instr)
    (m : Machine) (x : Int) (hm : m.returned = some x) : exec ext code m = some m := by
  cases code with
  | nil => rfl
  | cons i rest => simp [exec, hm]

/-- Running `c1 ++ c2` is running `c1`, then `c2` from the machine reached. -/
theorem exec_append (ext : Instr → Machine → Option Machine) (c2 : List Instr) :
    ∀ (c1 : List Instr) (m : Machine),
      exec ext (c1 ++ c2) m =
        match exec ext c1 m with
        | none => none
        | some m1 => exec ext c2 m1 := by
  intro c1
  induction c1 with
  | nil => intro m; rfl
  | cons i rest ih =>
    intro m
    rw [List.cons_append]
    simp only [exec]
    cases hr : m.returned with
    | some x =>
      simp only []
      cases c2 with
      | nil => rfl
      | cons j rest2 => simp [exec, hr]
    | none =>
      simp only []
      cases step ext i m with
      | none => rfl
      | some m1 => exact ih m1

/-- A value produced before instruction `n` was produced before any later one. -/
theorem below_mono {n k : Nat} (hnk : n ≤ k) (w : LVal) (hw : w.below n) : w.below k := by
  cases w <;> simp_all [LVal.below]
  omega

/-- Recording the value of instruction `n` changes no value produced before `n`. -/
theorem evalV_setReg_below (m : Machine) (n : Nat) (x : Int) (w : LVal) (hw : w.below n) :
    evalV (m.setReg n x) w = evalV m w := by
  cases w <;> simp_all [LVal.below, evalV, Machine.setReg]
  intro h
  omega

/-- A memory write changes the value of no value handle. -/
theorem evalV_setMem (m : Machine) (a x : Int) (w : LVal) :
    evalV (m.setMem a x) w = evalV m w := by
  cases w <;> rfl

/-- One `LocalStore` on the slot of `x`: it returns what the slot held and leaves the
source's value in the slot. -/
theorem localStore_run (h : Delegates) (g : GlobalState)
    (ext : Instr → Machine → Option Machine) (x : Local) (localName : String)
    (e : Expression) (s : State) (addr : LVal) (m0 : Machine) (a c0 A : Int)
    (v : LVal) (t' : State) (m' : Machine)
    (hx : s.getLocalAddr x.id = some addr) (hb : addr.below s.nextId)
    (ha : evalV m0 addr = some a) (hc : m0.mem a = some c0) (hr : m0.returned = none)
    (hsrc : SourceYields h g ext e x.id a
      (LLVMBuildLoad addr localName (buildFlare "LocalStore" s)).2
      (m0.setReg s.nextId c0) A v t' m') :
    translateExpression h g (.LocalStore x localName e) s =
        .ok (.inst s.nextId, LLVMBuildStore v addr t') ∧
    (∃ code, (LLVMBuildStore v addr t').instrs = s.instrs ++ code ∧
      exec ext code m0 = some (m'.setMem a A)) ∧
    evalV (m'.setMem a A) (.inst s.nextId) = some c0 ∧
    (m'.setMem a A).mem a = some A ∧
    (LLVMBuildStore v addr t').getLocalAddr x.id = some addr ∧
    s.nextId < (LLVMBuildStore v addr t').nextId ∧
    (m'.setMem a A).returned = none ∧
    (∀ w : LVal, w.below s.nextId → evalV (m'.setMem a A) w = evalV m0 w) := by
  obtain ⟨htr, ⟨code, hcode, hexec⟩, hmono, hkeep, hret, hmem, hpres, hval⟩ := hsrc
  have hx0 : (buildFlare "LocalStore" s).getLocalAddr x.id = some addr := hx
  have hnext : (LLVMBuildLoad addr localName (buildFlare "LocalStore" s)).2.nextId
      = s.nextId + 1 := rfl
  rw [hnext] at hmono hpres
  have haddr' : evalV m' addr = some a := by
    rw [hpres addr (below_mono (Nat.le_succ _) addr hb), evalV_setReg_below _ _ _ _ hb, ha]
  refine ⟨?_, ⟨[.flare "LocalStore", .load s.nextId addr localName] ++ code ++
      [.store v addr], ?_, ?_⟩, ?_, ?_, ?_, ?_, ?_, ?_⟩
  · simp only [translateExpression, hx0, bind, Except.bind, htr]
    rfl
  · simp only [LLVMBuildStore, State.emit, hcode]
    simp [LLVMBuildLoad, State.emitValue, buildFlare, State.emit]
  · rw [exec_append, exec_append]
    have h1 : exec ext [.flare "LocalStore", .load s.nextId addr localName] m0
        = some (m0.setReg s.nextId c0) := by
      simp [exec, step, hr, ha, hc, Machine.setReg]
    simp only [h1, hexec]
    simp [exec, step, hret, hval, haddr']
  · rw [evalV_setMem, hpres (.inst s.nextId) (by simp [LVal.below])]
    simp [evalV, Machine.setReg]
  · simp [Machine.setMem]
  · show t'.getLocalAddr x.id = some addr
    rw [hkeep]
    exact hx
  · show s.nextId < t'.nextId
    omega
  · exact hret
  · intro w hw
    rw [evalV_setMem, hpres w (below_mono (Nat.le_succ _) w hw),
      evalV_setReg_below _ _ _ _ hw]

end Midas

namespace Midas

/-- Claim C4. First part: a `LocalStore` on the slot of `x`, whose source yields `A`
without touching the slot, returns the content `c0` the slot had immediately before
its own store and leaves `A` in the slot. Second part: three consecutive `LocalStore`s
on `x` whose sources yield `A`, `B`, `C` without touching the slot run to a state where
the first returned the initial content, the second returned `A`, the third returned
`B`, and the slot holds `C`. -/
theorem localStore_swaps (h : Delegates) (g : GlobalState)
    (ext : Instr → Machine → Option Machine) (x : Local) (n1 n2 n3 : String)
    (eA eB eC : Expression) (s : State) (addr : LVal) (m0 : Machine) (a c0 A B C : Int)
    (vA vB vC : LVal) (tA tB tC : State) (mA mB mC : Machine)
    (hx : s.getLocalAddr x.id = some addr) (hb : addr.below s.nextId)
    (ha : evalV m0 addr = some a) (hc : m0.mem a = some c0) (hr : m0.returned = none)
    (hA : SourceYields h g ext eA x.id a
      (LLVMBuildLoad addr n1 (buildFlare "LocalStore" s)).2
      (m0.setReg s.nextId c0) A vA tA mA)
    (hB : SourceYields h g ext eB x.id a
      (LLVMBuildLoad addr n2 (buildFlare "LocalStore" (LLVMBuildStore vA addr tA))).2
      ((mA.setMem a A).setReg tA.nextId A) B vB tB mB)
    (hC : SourceYields h g ext eC x.id a
      (LLVMBuildLoad addr n3 (buildFlare "LocalStore" (LLVMBuildStore vB addr tB))).2
      ((mB.setMem a B).setReg tB.nextId B) C vC tC mC) :
    (translateExpression h g (.LocalStore x n1 eA) s =
        .ok (.inst s.nextId, LLVMBuildStore vA addr tA) ∧
      (∃ code, (LLVMBuildStore vA addr tA).instrs = s.instrs ++ code ∧
        exec ext code m0 = some (mA.setMem a A)) ∧
      mA.mem a = some c0 ∧
      evalV (mA.setMem a A) (.inst s.nextId) = some c0 ∧
      (mA.setMem a A).mem a = some A) ∧
    (∃ code,
      translateExpressions h g
          [.LocalStore x n1 eA, .LocalStore x n2 eB, .LocalStore x n3 eC] s =
        .ok ([.inst s.nextId, .inst tA.nextId, .inst tB.nextId], LLVMBuildStore vC addr tC) ∧
      (LLVMBuildStore vC addr tC).instrs = s.instrs ++ code ∧
      exec ext code m0 = some (mC.setMem a C) ∧
      evalV (mC.setMem a C) (.inst s.nextId) = some c0 ∧
      evalV (mC.setMem a C) (.inst tA.nextId) = some A ∧
      evalV (mC.setMem a C) (.inst tB.nextId) = some B ∧
      (mC.setMem a C).mem a = some C) := by
  obtain ⟨t1, ⟨code1, hcode1, hexec1⟩, hv1, hm1, hx1, hn1, hr1, hp1⟩ :=
    localStore_run h g ext x n1 eA s addr m0 a c0 A vA tA mA hx hb ha hc hr hA
  have hb1 : addr.below (LLVMBuildStore vA addr tA).nextId :=
    below_mono (Nat.le_of_lt hn1) addr hb
  have ha1 : evalV (mA.setMem a A) addr = some a := by rw [hp1 addr hb, ha]
  obtain ⟨t2, ⟨code2, hcode2, hexec2⟩, hv2, hm2, hx2, hn2, hr2, hp2⟩ :=
    localStore_run h g ext x n2 eB (LLVMBuildStore vA addr tA) addr (mA.setMem a A) a A B
      vB tB mB hx1 hb1 ha1 hm1 hr1 hB
  have hb2 : addr.below (LLVMBuildStore vB addr tB).nextId :=
    below_mono (Nat.le_of_lt hn2) addr hb1
  have ha2 : evalV (mB.setMem a B) addr = some a := by rw [hp2 addr hb1, ha1]
  obtain ⟨t3, ⟨code3, hcode3, hexec3⟩, hv3, hm3, hx3, hn3, hr3, hp3⟩ :=
    localStore_run h g ext x n3 eC (LLVMBuildStore vB addr tB) addr (mB.setMem a B) a B C
      vC tC mC hx2 hb2 ha2 hm2 hr2 hC
  have hmA : mA.mem a = some c0 := by
    rw [hA.2.2.2.2.2.1]
    simpa [Machine.setReg] using hc
  have hnA : (LLVMBuildStore vA addr tA).nextId = tA.nextId := rfl
  have hnB : (LLVMBuildStore vB addr tB).nextId = tB.nextId := rfl
  rw [hnA] at hn1 hv2 hn2 hp2
  rw [hnB] at hn2 hv3 hp3
  refine ⟨⟨t1, ⟨code1, hcode1, hexec1⟩, hmA, hv1, hm1⟩, code1 ++ code2 ++ code3, ?_, ?_, ?_,
    ?_, ?_, hv3, hm3⟩
  · simp only [translateExpressions, t1, t2, t3, bind, Except.bind, pure, Except.pure]
    rfl
  · rw [hcode3, hcode2, hcode1]
    simp
  · rw [exec_append, exec_append, hexec1]
    simp only [hexec2, hexec3]
  · rw [hp3 (.inst s.nextId) (by simp only [LVal.below]; omega),
      hp2 (.inst s.nextId) (by simp only [LVal.below]; omega)]
    exact hv1
  · rw [hp3 (.inst tA.nextId) (by simp only [LVal.below]; omega)]
    exact hv2

end Midas

namespace Midas

/-- A `ConstantI64` is a source that yields its value (as a 64-bit pattern) and touches
no slot. -/
theorem sourceYields_constantI64 (h : Delegates) (g : GlobalState)
    (ext : Instr → Machine → Option Machine) (value : Int) (x : VariableId) (a : Int)
    (t : State) (m : Machine) (hr : m.returned = none) :
    SourceYields h g ext (.ConstantI64 value) x a t m (value % 2 ^ 64) (.inst t.nextId)
      (makeConstIntExpr 64 value (buildFlare "ConstantI64" t)).2
      (m.setReg t.nextId (value % 2 ^ 64)) := by
  refine ⟨rfl, ⟨[.flare "ConstantI64", .makeConstIntExpr t.nextId 64 value], ?_, ?_⟩, ?_, rfl,
    hr, rfl, ?_, ?_⟩
  · simp [makeConstIntExpr, State.emitValue, buildFlare, State.emit]
  · simp [exec, step, hr, Machine.setReg]
  · simp [makeConstIntExpr, State.emitValue, buildFlare, State.emit]
  · intro w hw
    exact evalV_setReg_below m t.nextId _ w hw
  · simp [evalV, Machine.setReg]

/-- The theorem `localStore_swaps` for the stores of `1`, `2`, `3` into a slot at
address `100` that holds `7`: they return `7`, `1`, `2` and leave `3`. -/
theorem localStore_swaps_witness :
    ∃ code mF,
      translateExpressions noDelegates emptyGlobalState
          [.LocalStore ⟨⟨0, "x"⟩, ⟨.SHARE, .INLINE, .Other "Int"⟩⟩ "x" (.ConstantI64 1),
           .LocalStore ⟨⟨0, "x"⟩, ⟨.SHARE, .INLINE, .Other "Int"⟩⟩ "x" (.ConstantI64 2),
           .LocalStore ⟨⟨0, "x"⟩, ⟨.SHARE, .INLINE, .Other "Int"⟩⟩ "x" (.ConstantI64 3)]
          { localAddrs := [(⟨0, "x"⟩, .inst 0)], instrs := [.alloca 0 "x"], nextId := 1 } =
        .ok ([.inst 1, .inst 3, .inst 5],
          { localAddrs := [(⟨0, "x"⟩, .inst 0)],
            instrs := [.alloca 0 "x",
              .flare "LocalStore", .load 1 (.inst 0) "x", .flare "ConstantI64",
              .makeConstIntExpr 2 64 1, .store (.inst 2) (.inst 0),
              .flare "LocalStore", .load 3 (.inst 0) "x", .flare "ConstantI64",
              .makeConstIntExpr 4 64 2, .store (.inst 4) (.inst 0),
              .flare "LocalStore", .load 5 (.inst 0) "x", .flare "ConstantI64",
              .makeConstIntExpr 6 64 3, .store (.inst 6) (.inst 0)],
            nextId := 7 }) ∧
      exec noExt code
          { regs := fun k => if k = 0 then some 100 else none,
            mem := fun k => if k = 100 then some 7 else none,
            params := fun _ => none, nextAddr := 101, returned := none } = some mF ∧
      evalV mF (.inst 1) = some 7 ∧
      evalV mF (.inst 3) = some 1 ∧
      evalV mF (.inst 5) = some 2 ∧
      mF.mem 100 = some 3 :=
  let m0 : Machine :=
    { regs := fun k => if k = 0 then some 100 else none,
      mem := fun k => if k = 100 then some 7 else none,
      params := fun _ => none, nextAddr := 101, returned := none }
  let s0 : State :=
    { localAddrs := [(⟨0, "x"⟩, .inst 0)], instrs := [.alloca 0 "x"], nextId := 1 }
  let x : Local := ⟨⟨0, "x"⟩, ⟨.SHARE, .INLINE, .Other "Int"⟩⟩
  have hh := (localStore_swaps noDelegates emptyGlobalState noExt x "x" "x" "x"
    (.ConstantI64 1) (.ConstantI64 2) (.ConstantI64 3) s0 (.inst 0) m0 100 7 1 2 3
    _ _ _ _ _ _ _ _ _ rfl (by decide) rfl rfl rfl
    (sourceYields_constantI64 _ _ _ 1 _ _ _ _ rfl)
    (sourceYields_constantI64 _ _ _ 2 _ _ _ _ rfl)
    (sourceYields_constantI64 _ _ _ 3 _ _ _ _ rfl)).2
  match hh with
  | ⟨code, h1, _, h3, h4, h5, h6, h7⟩ => ⟨code, _, h1, h3, h4, h5, h6, h7⟩

/-- The theorem `localLoad_spec` at a heap-resident local and at an `INLINE` local. -/
theorem localLoad_spec_witness :
    translateExpression noDelegates emptyGlobalState
        (.LocalLoad ⟨⟨0, "x"⟩, ⟨.SHARE, .YONDER, .StructReferend ⟨"Ship"⟩⟩⟩ "x")
        { localAddrs := [(⟨0, "x"⟩, .inst 0)], instrs := [.alloca 0 "x"], nextId := 1 } =
      .ok (.inst 1,
        { localAddrs := [(⟨0, "x"⟩, .inst 0)],
          instrs := [.alloca 0 "x", .flare "LocalLoad", .load 1 (.inst 0) "x",
            .adjustRc (.inst 1) ⟨.SHARE, .YONDER, .StructReferend ⟨"Ship"⟩⟩ 1],
          nextId := 2 }) ∧
    translateExpression noDelegates emptyGlobalState
        (.LocalLoad ⟨⟨0, "x"⟩, ⟨.SHARE, .INLINE, .Other "Int"⟩⟩ "x")
        { localAddrs := [(⟨0, "x"⟩, .inst 0)], instrs := [.alloca 0 "x"], nextId := 1 } =
      .ok (.inst 1,
        { localAddrs := [(⟨0, "x"⟩, .inst 0)],
          instrs := [.alloca 0 "x", .flare "LocalLoad", .load 1 (.inst 0) "x"],
          nextId := 2 }) :=
  ⟨localLoad_spec noDelegates emptyGlobalState
      ⟨⟨0, "x"⟩, ⟨.SHARE, .YONDER, .StructReferend ⟨"Ship"⟩⟩⟩ "x"
      { localAddrs := [(⟨0, "x"⟩, .inst 0)], instrs := [.alloca 0 "x"], nextId := 1 }
      (.inst 0) rfl,
   localLoad_spec noDelegates emptyGlobalState
      ⟨⟨0, "x"⟩, ⟨.SHARE, .INLINE, .Other "Int"⟩⟩ "x"
      { localAddrs := [(⟨0, "x"⟩, .inst 0)], instrs := [.alloca 0 "x"], nextId := 1 }
      (.inst 0) rfl⟩

/-- The theorem `return_spec` at `Return (ConstantI64 5)`. -/
theorem return_spec_witness :
    translateExpression noDelegates emptyGlobalState (.Return (.ConstantI64 5)) emptyState =
      .ok (.inst 1,
        { localAddrs := [],
          instrs := [.flare "Return", .flare "ConstantI64", .makeConstIntExpr 0 64 5,
            .ret 1 (.inst 0)],
          nextId := 2 }) ∧
    LVal.inst 1 ≠ makeNever :=
  return_spec noDelegates emptyGlobalState (.ConstantI64 5) emptyState (.inst 0) _ rfl

/-- The theorem `destroyKnownSizeArray_spec` at an `OWN` array of length `3` given as
argument 0 and a consumer given as argument 1. -/
theorem destroyKnownSizeArray_spec_witness :
    translateExpression noDelegates emptyGlobalState
        (.DestroyKnownSizeArrayIntoFunction ⟨.BORROW, .YONDER, .InterfaceReferend ⟨"IConsumer"⟩⟩
          ⟨⟨"Arr3"⟩, 3⟩ (.Argument 0) (.Argument 1)
          ⟨.OWN, .YONDER, .KnownSizeArrayT ⟨⟨"Arr3"⟩, 3⟩⟩) emptyState =
      .ok (makeNever,
        { localAddrs := [],
          instrs := [.flare "DestroyKnownSizeArrayIntoFunction", .flare "Argument",
            .getKnownSizeArrayContentsPtr 0 (.param 0), .flare "Argument",
            .foreachArrayElement (.constInt 64 3) (.inst 0) (.inst 1)
              [.acquireReference ⟨.BORROW, .YONDER, .InterfaceReferend ⟨"IConsumer"⟩⟩ (.param 1),
               .gep 2 (.inst 0) [.constInt 64 0, .inst 1] "elementPtr",
               .load 3 (.inst 2) "element",
               .buildInterfaceCall 4 [.param 1, .inst 3] 0 0],
            .adjustRc (.param 0) ⟨.OWN, .YONDER, .KnownSizeArrayT ⟨⟨"Arr3"⟩, 3⟩⟩ (-1),
            .freeConcrete (.param 0) ⟨.OWN, .YONDER, .KnownSizeArrayT ⟨⟨"Arr3"⟩, 3⟩⟩,
            .discard ⟨.BORROW, .YONDER, .InterfaceReferend ⟨"IConsumer"⟩⟩ (.param 1)],
          nextId := 5 }) ∧
    (Instr.foreachArrayElement (.constInt 64 3) (.inst 0) (.inst 1)
        (consumeBody ⟨.BORROW, .YONDER, .InterfaceReferend ⟨"IConsumer"⟩⟩ (.inst 0)
          (.param 1) 1)).iterations =
      some [(0, consumeBody ⟨.BORROW, .YONDER, .InterfaceReferend ⟨"IConsumer"⟩⟩ (.inst 0)
              (.param 1) 1),
            (1, consumeBody ⟨.BORROW, .YONDER, .InterfaceReferend ⟨"IConsumer"⟩⟩ (.inst 0)
              (.param 1) 1),
            (2, consumeBody ⟨.BORROW, .YONDER, .InterfaceReferend ⟨"IConsumer"⟩⟩ (.inst 0)
              (.param 1) 1)] :=
  have hh := destroyKnownSizeArray_spec noDelegates emptyGlobalState
    ⟨.BORROW, .YONDER, .InterfaceReferend ⟨"IConsumer"⟩⟩
    ⟨.OWN, .YONDER, .KnownSizeArrayT ⟨⟨"Arr3"⟩, 3⟩⟩ ⟨⟨"Arr3"⟩, 3⟩ (.Argument 0) (.Argument 1)
    emptyState (.param 0) (.param 1) _ _ rfl rfl (by decide) (by decide)
  ⟨hh.1, hh.2.2⟩

/-- The theorem `destroy_tail_spec` at a `SHARE` fixed-length array, an `OWN`
variable-length array and a `BORROW` variable-length array. -/
theorem destroy_tail_spec_witness :
    translateExpression noDelegates emptyGlobalState
        (.DestroyKnownSizeArrayIntoFunction ⟨.BORROW, .YONDER, .InterfaceReferend ⟨"IConsumer"⟩⟩
          ⟨⟨"Arr3"⟩, 3⟩ (.Argument 0) (.Argument 1)
          ⟨.SHARE, .YONDER, .KnownSizeArrayT ⟨⟨"Arr3"⟩, 3⟩⟩) emptyState =
      .ok (makeNever,
        { localAddrs := [],
          instrs := [.flare "DestroyKnownSizeArrayIntoFunction", .flare "Argument",
            .getKnownSizeArrayContentsPtr 0 (.param 0), .flare "Argument",
            .foreachArrayElement (.constInt 64 3) (.inst 0) (.inst 1)
              (consumeBody ⟨.BORROW, .YONDER, .InterfaceReferend ⟨"IConsumer"⟩⟩ (.inst 0)
                (.param 1) 1),
            .freeConcrete (.param 0) ⟨.SHARE, .YONDER, .KnownSizeArrayT ⟨⟨"Arr3"⟩, 3⟩⟩,
            .discard ⟨.BORROW, .YONDER, .InterfaceReferend ⟨"IConsumer"⟩⟩ (.param 1)],
          nextId := 5 }) ∧
    translateExpression noDelegates emptyGlobalState
        (.DestroyUnknownSizeArray ⟨.BORROW, .YONDER, .InterfaceReferend ⟨"IConsumer"⟩⟩
          (.Argument 0) (.Argument 1)
          ⟨.OWN, .YONDER, .UnknownSizeArrayT ⟨"Arr"⟩⟩) emptyState =
      .ok (makeNever,
        { localAddrs := [],
          instrs := [.flare "DestroyUnknownSizeArray", .flare "Argument",
            .getUnknownSizeArrayContentsPtr 0 (.param 0),
            .getUnknownSizeArrayLength 1 (.inst 0), .flare "Argument",
            .foreachArrayElement (.inst 1) (.inst 0) (.inst 2)
              (consumeBody ⟨.BORROW, .YONDER, .InterfaceReferend ⟨"IConsumer"⟩⟩ (.inst 0)
                (.param 1) 2),
            .adjustRc (.param 0) ⟨.OWN, .YONDER, .UnknownSizeArrayT ⟨"Arr"⟩⟩ (-1),
            .freeConcrete (.param 0) ⟨.OWN, .YONDER, .UnknownSizeArrayT ⟨"Arr"⟩⟩,
            .discard ⟨.BORROW, .YONDER, .InterfaceReferend ⟨"IConsumer"⟩⟩ (.param 1)],
          nextId := 6 }) ∧
    translateExpression noDelegates emptyGlobalState
        (.DestroyUnknownSizeArray ⟨.BORROW, .YONDER, .InterfaceReferend ⟨"IConsumer"⟩⟩
          (.Argument 0) (.Argument 1)
          ⟨.BORROW, .YONDER, .UnknownSizeArrayT ⟨"Arr"⟩⟩) emptyState =
      .error .assertFailed :=
  ⟨(destroy_tail_spec noDelegates emptyGlobalState
      ⟨.BORROW, .YONDER, .InterfaceReferend ⟨"IConsumer"⟩⟩
      ⟨.SHARE, .YONDER, .KnownSizeArrayT ⟨⟨"Arr3"⟩, 3⟩⟩ ⟨⟨"Arr3"⟩, 3⟩ (.Argument 0)
      (.Argument 1) emptyState).1 (.param 0) (.param 1) _ _ rfl rfl,
   (destroy_tail_spec noDelegates emptyGlobalState
      ⟨.BORROW, .YONDER, .InterfaceReferend ⟨"IConsumer"⟩⟩
      ⟨.OWN, .YONDER, .UnknownSizeArrayT ⟨"Arr"⟩⟩ ⟨⟨"Arr3"⟩, 3⟩ (.Argument 0)
      (.Argument 1) emptyState).2 (.param 0) (.param 1) _ _ rfl rfl,
   (destroy_tail_spec noDelegates emptyGlobalState
      ⟨.BORROW, .YONDER, .InterfaceReferend ⟨"IConsumer"⟩⟩
      ⟨.BORROW, .YONDER, .UnknownSizeArrayT ⟨"Arr"⟩⟩ ⟨⟨"Arr3"⟩, 3⟩ (.Argument 0)
      (.Argument 1) emptyState).2 (.param 0) (.param 1) _ _ rfl rfl⟩

/-- The theorem `structToInterfaceUpcast_spec` at the upcast of a `Ship` to `IVehicle`
in a registry with two structs, two interfaces and three tables. -/
theorem structToInterfaceUpcast_spec_witness :
    ∃ s2,
      translateExpression noDelegates
          { program := { structs :=
              [⟨⟨"Car"⟩, [⟨⟨"Car"⟩, ⟨"IVehicle"⟩⟩]⟩,
               ⟨⟨"Ship"⟩, [⟨⟨"Ship"⟩, ⟨"IFloat"⟩⟩, ⟨⟨"Ship"⟩, ⟨"IVehicle"⟩⟩]⟩] },
            interfaceRefStructs := [(⟨"IFloat"⟩, ⟨"IFloatRef"⟩), (⟨"IVehicle"⟩, ⟨"IVehicleRef"⟩)],
            interfaceTablePtrs :=
              [(⟨⟨"Car"⟩, ⟨"IVehicle"⟩⟩, .global "Car.IVehicle"),
               (⟨⟨"Ship"⟩, ⟨"IFloat"⟩⟩, .global "Ship.IFloat"),
               (⟨⟨"Ship"⟩, ⟨"IVehicle"⟩⟩, .global "Ship.IVehicle")] }
          (.StructToInterfaceUpcast (.Argument 0) ⟨.OWN, .YONDER, .StructReferend ⟨"Ship"⟩⟩
            ⟨"Ship"⟩ ⟨"IVehicle"⟩) emptyState = .ok (.inst 2, s2) ∧
      s2.instrs =
        [.flare "StructToInterfaceUpcast", .flare "Argument",
         .getControlBlockPtr 0 (.param 0) ⟨.OWN, .YONDER, .StructReferend ⟨"Ship"⟩⟩,
         .insertValue 1 ( .undef (LType.mk "IVehicleRef")) (.inst 0) 0 "interfaceRefWithOnlyObj",
         .insertValue 2 (.inst 1) (.global "Ship.IVehicle") 1 "interfaceRef"] ∧
      s2.component (.inst 2) 0 = some (.inst 0) ∧
      s2.component (.inst 2) 1 = some (.global "Ship.IVehicle") :=
  have hh := structToInterfaceUpcast_spec noDelegates
    { program := { structs :=
        [⟨⟨"Car"⟩, [⟨⟨"Car"⟩, ⟨"IVehicle"⟩⟩]⟩,
         ⟨⟨"Ship"⟩, [⟨⟨"Ship"⟩, ⟨"IFloat"⟩⟩, ⟨⟨"Ship"⟩, ⟨"IVehicle"⟩⟩]⟩] },
      interfaceRefStructs := [(⟨"IFloat"⟩, ⟨"IFloatRef"⟩), (⟨"IVehicle"⟩, ⟨"IVehicleRef"⟩)],
      interfaceTablePtrs :=
        [(⟨⟨"Car"⟩, ⟨"IVehicle"⟩⟩, .global "Car.IVehicle"),
         (⟨⟨"Ship"⟩, ⟨"IFloat"⟩⟩, .global "Ship.IFloat"),
         (⟨⟨"Ship"⟩, ⟨"IVehicle"⟩⟩, .global "Ship.IVehicle")] }
    (.Argument 0) ⟨.OWN, .YONDER, .StructReferend ⟨"Ship"⟩⟩ ⟨"Ship"⟩ ⟨"IVehicle"⟩ emptyState
    (.param 0) _ ⟨"IVehicleRef"⟩ ⟨⟨"Ship"⟩, [⟨⟨"Ship"⟩, ⟨"IFloat"⟩⟩, ⟨⟨"Ship"⟩, ⟨"IVehicle"⟩⟩]⟩
    ⟨⟨"Ship"⟩, ⟨"IVehicle"⟩⟩ (.global "Ship.IVehicle") rfl (by decide) (by decide) (by decide)
    (by decide) (by decide)
  match hh with
  | ⟨s2, h1, h2, h3, h4, _⟩ => ⟨s2, h1, h2, h3, h4⟩

end Midas

/-! # Theorems on member access, array access and ownership -/

namespace Midas

/-- Claim C11, counterexample. A `MemberLoad` from a struct operand whose type is `SHARE`
and `INLINE` (argument 0) emits the field read and then one `discard` of the operand,
and by the contract of `discard` ("no-op for ... INLINE values") its own code lowers
the operand's refcount zero times, not once. -/
theorem memberLoad_share_inline_no_decrement :
    translateExpression noDelegates emptyGlobalState
        (.MemberLoad (.Argument 0) ⟨.SHARE, .INLINE, .StructReferend ⟨"Point"⟩⟩
          ⟨.SHARE, .INLINE, .Other "Int"⟩ 1 "second") emptyState =
      .ok (.inst 0,
        { localAddrs := [],
          instrs := [.flare "MemberLoad", .flare "Argument",
            .loadMember 0 ⟨.SHARE, .INLINE, .StructReferend ⟨"Point"⟩⟩ (.param 0) .IMMUTABLE
              ⟨.SHARE, .INLINE, .Other "Int"⟩ 1 "second",
            .discard ⟨.SHARE, .INLINE, .StructReferend ⟨"Point"⟩⟩ (.param 0)],
          nextId := 1 }) ∧
    rcDecrements (.param 0)
      [.loadMember 0 ⟨.SHARE, .INLINE, .StructReferend ⟨"Point"⟩⟩ (.param 0) .IMMUTABLE
          ⟨.SHARE, .INLINE, .Other "Int"⟩ 1 "second",
       .discard ⟨.SHARE, .INLINE, .StructReferend ⟨"Point"⟩⟩ (.param 0)] = 0 :=
  ⟨rfl, by decide⟩

/-- Claim C11, amended. Once the struct operand of a `MemberLoad` is translated (first),
the node emits the read of the field at `memberIndex`, with the mutability
`ownershipToMutability` gives for the struct type's ownership alone, then exactly one
`discard` of the struct operand, and returns the value of the field read. By the
contract of `discard`, this code lowers the refcount of the struct operand exactly
once when the struct type is `SHARE` and not `INLINE`, and not at all otherwise; it
never raises it. -/
theorem memberLoad_spec (h : Delegates) (g : GlobalState) (structExpr : Expression)
    (structType expectedResultType : Reference) (memberIndex : Nat) (memberName : String)
    (s : State) (structLE : LVal) (s1 : State)
    (hstruct : translateExpression h g structExpr (buildFlare "MemberLoad" s)
      = .ok (structLE, s1)) :
    translateExpression h g
        (.MemberLoad structExpr structType expectedResultType memberIndex memberName) s =
      .ok (.inst s1.nextId,
        { localAddrs := s1.localAddrs,
          instrs := s1.instrs ++
            [.loadMember s1.nextId structType structLE
               (ownershipToMutability structType.ownership) expectedResultType memberIndex
               memberName,
             .discard structType structLE],
          nextId := s1.nextId + 1 }) ∧
    rcDecrements structLE
        [.loadMember s1.nextId structType structLE
           (ownershipToMutability structType.ownership) expectedResultType memberIndex
           memberName,
         .discard structType structLE] =
      (if structType.ownership = Ownership.SHARE ∧ structType.location ≠ Location.INLINE
        then 1 else 0) ∧
    rcIncrements structLE
        [.loadMember s1.nextId structType structLE
           (ownershipToMutability structType.ownership) expectedResultType memberIndex
           memberName,
         .discard structType structLE] = 0 := by
  refine ⟨?_, ?_, ?_⟩
  · simp [translateExpression, hstruct, bind, Except.bind, pure, Except.pure, loadMember,
      discard, State.emitValue, State.emit]
  · by_cases hc : structType.ownership = Ownership.SHARE ∧
        structType.location ≠ Location.INLINE
    · simp [rcDecrements, rcAdjustment, hc]
    · simp [rcDecrements, rcAdjustment, hc]
  · by_cases hc : structType.ownership = Ownership.SHARE ∧
        structType.location ≠ Location.INLINE
    · simp [rcIncrements, rcAdjustment, hc]
    · simp [rcIncrements, rcAdjustment, hc]

/-- Claim C14. A `StructToInterfaceUpcast` whose source struct type is `INLINE` never
yields a value: once its source operand is translated the assertion aborts the
translation, before any part of an interface reference is built; if the source
operand aborts, that abort is the result. -/
theorem structToInterfaceUpcast_inline_aborts (h : Delegates) (g : GlobalState)
    (sourceExpr : Expression) (sourceStructType : Reference)
    (sourceStructId targetInterfaceRef : Name) (s : State)
    (hloc : sourceStructType.location = Location.INLINE) :
    translateExpression h g
        (.StructToInterfaceUpcast sourceExpr sourceStructType sourceStructId
          targetInterfaceRef) s =
      (match translateExpression h g sourceExpr (buildFlare "StructToInterfaceUpcast" s) with
       | .error e => .error e
       | .ok _ => .error .assertFailed) ∧
    ∀ r, translateExpression h g
        (.StructToInterfaceUpcast sourceExpr sourceStructType sourceStructId
          targetInterfaceRef) s ≠ .ok r := by
  have hmain : translateExpression h g
        (.StructToInterfaceUpcast sourceExpr sourceStructType sourceStructId
          targetInterfaceRef) s =
      (match translateExpression h g sourceExpr (buildFlare "StructToInterfaceUpcast" s) with
       | .error e => .error e
       | .ok _ => .error .assertFailed) := by
    simp only [translateExpression, bind, Except.bind]
    cases translateExpression h g sourceExpr (buildFlare "StructToInterfaceUpcast" s) with
    | error e => rfl
    | ok r => simp [hloc, throw, throwThe, MonadExceptOf.throw]
  refine ⟨hmain, ?_⟩
  intro r hr
  rw [hmain] at hr
  cases hsrc : translateExpression h g sourceExpr (buildFlare "StructToInterfaceUpcast" s) with
  | error e => rw [hsrc] at hr; cases hr
  | ok r0 => rw [hsrc] at hr; cases hr

end Midas

namespace Midas

/-- Claim C17. In both array loads the array operand is translated before the index
operand, and after both the node emits exactly one `discard` of the array operand,
then the contents pointer of the array, then the element read from that contents
pointer at the translated index. The length handed to the element read is the
constant size of the array type in the fixed-length load, and in the variable-length
load the value of the `getUnknownSizeArrayLength` emitted on the translated array
operand right after it. -/
theorem arrayLoad_spec (h : Delegates) (g : GlobalState) (arrayType : Reference)
    (arrayExpr indexExpr : Expression) (s : State) :
    (∀ (k : KnownSizeArrayT) (arrayWrapperPtrLE indexLE : LVal) (s1 s2 : State),
      arrayType.referend = Referend.KnownSizeArrayT k →
      translateExpression h g arrayExpr (buildFlare "KnownSizeArrayLoad" s)
        = .ok (arrayWrapperPtrLE, s1) →
      translateExpression h g indexExpr s1 = .ok (indexLE, s2) →
      translateExpression h g (.KnownSizeArrayLoad arrayType arrayExpr indexExpr) s =
        .ok (.inst (s2.nextId + 1),
          { localAddrs := s2.localAddrs,
            instrs := s2.instrs ++
              [.discard arrayType arrayWrapperPtrLE,
               .getKnownSizeArrayContentsPtr s2.nextId arrayWrapperPtrLE,
               .loadElement (s2.nextId + 1) arrayType (constI64LE k.size) (.inst s2.nextId)
                 (ownershipToMutability arrayType.ownership) indexLE],
            nextId := s2.nextId + 2 })) ∧
    (∀ (arrayWrapperPtrLE indexLE : LVal) (s1 s2 : State),
      translateExpression h g arrayExpr (buildFlare "UnknownSizeArrayLoad" s)
        = .ok (arrayWrapperPtrLE, s1) →
      translateExpression h g indexExpr
          { localAddrs := s1.localAddrs,
            instrs := s1.instrs ++ [.getUnknownSizeArrayLength s1.nextId arrayWrapperPtrLE],
            nextId := s1.nextId + 1 } = .ok (indexLE, s2) →
      translateExpression h g (.UnknownSizeArrayLoad arrayType arrayExpr indexExpr) s =
        .ok (.inst (s2.nextId + 1),
          { localAddrs := s2.localAddrs,
            instrs := s2.instrs ++
              [.discard arrayType arrayWrapperPtrLE,
               .getUnknownSizeArrayContentsPtr s2.nextId arrayWrapperPtrLE,
               .loadElement (s2.nextId + 1) arrayType (.inst s1.nextId) (.inst s2.nextId)
                 (ownershipToMutability arrayType.ownership) indexLE],
            nextId := s2.nextId + 2 })) := by
  constructor
  · intro k aw idx s1 s2 hk h1 h2
    simp [translateExpression, h1, bind, Except.bind, hk, h2, pure, Except.pure, discard,
      getKnownSizeArrayContentsPtr, loadElement, State.emitValue, State.emit]
  · intro aw idx s1 s2 h1 h2
    simp [translateExpression, h1, bind, Except.bind, getUnknownSizeArrayLength, h2, pure,
      Except.pure, discard, getUnknownSizeArrayContentsPtr, loadElement, State.emitValue,
      State.emit]

/-- Claim C18, counterexample. In the code of a `MemberStore` whose new value is the
constant `1` and whose struct operand is argument 0, the instructions of the new-value
operand (the constant) come before those of the struct operand (the flare of the
argument): the struct operand is not translated first. -/
theorem memberStore_source_first :
    translateExpression noDelegates
        { program := { structs := [⟨⟨"Point"⟩, []⟩] }, interfaceRefStructs := [],
          interfaceTablePtrs := [] }
        (.MemberStore (.ConstantI64 1) (.Argument 0)
          ⟨.BORROW, .YONDER, .StructReferend ⟨"Point"⟩⟩ 1 "second") emptyState =
      .ok (.inst 1,
        { localAddrs := [],
          instrs := [.flare "MemberStore",
            .flare "ConstantI64", .makeConstIntExpr 0 64 1,
            .flare "Argument",
            .swapMember 1 ⟨⟨"Point"⟩, []⟩ (.param 0) 1 "second" (.inst 0),
            .discard ⟨.BORROW, .YONDER, .StructReferend ⟨"Point"⟩⟩ (.param 0)],
          nextId := 2 }) ∧
    (translateExpression noDelegates emptyGlobalState (.ConstantI64 1)
        (buildFlare "MemberStore" emptyState)).toOption.map (fun r => r.2.instrs) =
      some [.flare "MemberStore", .flare "ConstantI64", .makeConstIntExpr 0 64 1] ∧
    (translateExpression noDelegates emptyGlobalState (.Argument 0)
        (buildFlare "MemberStore" emptyState)).toOption.map (fun r => r.2.instrs) =
      some [.flare "MemberStore", .flare "Argument"] :=
  ⟨rfl, rfl, rfl⟩

/-- Claim C18, amended. A `MemberStore` translates its two operands in the order the code
names them: the new-value operand first, the struct operand second, from the state
the new-value operand left; then it emits the field swap on the struct with the new
value, then exactly one `discard` of the struct operand, and returns the value of the
swap, the previous field value. -/
theorem memberStore_spec (h : Delegates) (g : GlobalState) (sourceExpr structExpr : Expression)
    (structType : Reference) (memberIndex : Nat) (memberName : String) (s : State)
    (sourceLE structLE : LVal) (s1 s2 : State) (fullName : Name)
    (structDefM : StructDefinition)
    (hsource : translateExpression h g sourceExpr (buildFlare "MemberStore" s)
      = .ok (sourceLE, s1))
    (hstruct : translateExpression h g structExpr s1 = .ok (structLE, s2))
    (hreferend : structType.referend = Referend.StructReferend fullName)
    (hdef : g.program.getStruct fullName = some structDefM) :
    translateExpression h g
        (.MemberStore sourceExpr structExpr structType memberIndex memberName) s =
      .ok (.inst s2.nextId,
        { localAddrs := s2.localAddrs,
          instrs := s2.instrs ++
            [.swapMember s2.nextId structDefM structLE memberIndex memberName sourceLE,
             .discard structType structLE],
          nextId := s2.nextId + 1 }) := by
  simp [translateExpression, hsource, bind, Except.bind, hstruct, hreferend, hdef, pure,
    Except.pure, swapMember, discard, State.emitValue, State.emit]

/-- Claim C20, the code at the failing input. `DestroyUnknownSizeArray` on the array given
as argument 0 hands `getUnknownSizeArrayLength` the contents pointer (instruction 0,
the result of `getUnknownSizeArrayContentsPtr`), while `ArrayLength` and
`UnknownSizeArrayLoad` on the same array hand it the array operand itself (argument
0): the three paths do not read the length through the same kind of pointer. -/
theorem unknownSizeArray_length_pointer_differs :
    translateExpression noDelegates emptyGlobalState
        (.DestroyUnknownSizeArray ⟨.BORROW, .YONDER, .InterfaceReferend ⟨"IConsumer"⟩⟩
          (.Argument 0) (.Argument 1) ⟨.OWN, .YONDER, .UnknownSizeArrayT ⟨"Arr"⟩⟩)
        emptyState =
      .ok (makeNever,
        { localAddrs := [],
          instrs := [.flare "DestroyUnknownSizeArray", .flare "Argument",
            .getUnknownSizeArrayContentsPtr 0 (.param 0),
            .getUnknownSizeArrayLength 1 (.inst 0), .flare "Argument",
            .foreachArrayElement (.inst 1) (.inst 0) (.inst 2)
              (consumeBody ⟨.BORROW, .YONDER, .InterfaceReferend ⟨"IConsumer"⟩⟩ (.inst 0)
                (.param 1) 2),
            .adjustRc (.param 0) ⟨.OWN, .YONDER, .UnknownSizeArrayT ⟨"Arr"⟩⟩ (-1),
            .freeConcrete (.param 0) ⟨.OWN, .YONDER, .UnknownSizeArrayT ⟨"Arr"⟩⟩,
            .discard ⟨.BORROW, .YONDER, .InterfaceReferend ⟨"IConsumer"⟩⟩ (.param 1)],
          nextId := 6 }) ∧
    translateExpression noDelegates emptyGlobalState
        (.ArrayLength ⟨.OWN, .YONDER, .UnknownSizeArrayT ⟨"Arr"⟩⟩ (.Argument 0))
        emptyState =
      .ok (.inst 0,
        { localAddrs := [],
          instrs := [.flare "ArrayLength", .flare "Argument",
            .getUnknownSizeArrayLength 0 (.param 0),
            .discard ⟨.OWN, .YONDER, .UnknownSizeArrayT ⟨"Arr"⟩⟩ (.param 0)],
          nextId := 1 }) ∧
    translateExpression noDelegates emptyGlobalState
        (.UnknownSizeArrayLoad ⟨.OWN, .YONDER, .UnknownSizeArrayT ⟨"Arr"⟩⟩ (.Argument 0)
          (.Argument 1)) emptyState =
      .ok (.inst 2,
        { localAddrs := [],
          instrs := [.flare "UnknownSizeArrayLoad", .flare "Argument",
            .getUnknownSizeArrayLength 0 (.param 0), .flare "Argument",
            .discard ⟨.OWN, .YONDER, .UnknownSizeArrayT ⟨"Arr"⟩⟩ (.param 0),
            .getUnknownSizeArrayContentsPtr 1 (.param 0),
            .loadElement 2 ⟨.OWN, .YONDER, .UnknownSizeArrayT ⟨"Arr"⟩⟩ (.inst 0) (.inst 1)
              .MUTABLE (.param 1)],
          nextId := 3 }) ∧
    LVal.inst 0 ≠ LVal.param 0 :=
  ⟨rfl, rfl, rfl, by decide⟩

end Midas

namespace Midas

/-- The list translation succeeds exactly when its expressions translate one after the
other, each from the state the one before it left. -/
theorem translateExpressions_chain (h : Delegates) (g : GlobalState) :
    ∀ (exprs : List Expression) (s : State) (values : List LVal) (s' : State),
      translateExpressions h g exprs s = .ok (values, s') ↔
        ∃ states : Nat → State, states 0 = s ∧ states exprs.length = s' ∧
          values.length = exprs.length ∧
          ∀ (i : Nat) (hi : i < exprs.length), ∃ v, values[i]? = some v ∧
            translateExpression h g exprs[i] (states i) = .ok (v, states (i + 1)) := by
  intro exprs
  induction exprs with
  | nil =>
    intro s values s'
    simp only [translateExpressions, List.length_nil]
    constructor
    · intro heq
      cases heq
      exact ⟨fun _ => s, rfl, rfl, rfl, fun i hi => absurd hi (Nat.not_lt_zero i)⟩
    · rintro ⟨states, h0, hn, hlen, _⟩
      have hv : values = [] := List.eq_nil_of_length_eq_zero hlen
      rw [hv, ← h0, ← hn]
  | cons e rest ih =>
    intro s values s'
    simp only [translateExpressions, bind, Except.bind, pure, Except.pure, List.length_cons]
    constructor
    · intro heq
      cases he : translateExpression h g e s with
      | error err => rw [he] at heq; cases heq
      | ok r =>
        obtain ⟨v, s1⟩ := r
        rw [he] at heq
        simp only [] at heq
        cases hr : translateExpressions h g rest s1 with
        | error err => rw [hr] at heq; cases heq
        | ok r2 =>
          obtain ⟨vs, s2⟩ := r2
          rw [hr] at heq
          simp only [] at heq
          cases heq
          obtain ⟨states, h0, hn, hlen, hstep⟩ := (ih s1 vs _).1 hr
          refine ⟨fun i => match i with | 0 => s | j + 1 => states j, rfl, hn, ?_, ?_⟩
          · simp [hlen]
          · intro i hi
            cases i with
            | zero =>
              refine ⟨v, by simp, ?_⟩
              simp only [List.getElem_cons_zero]
              rw [he, h0]
            | succ j =>
              obtain ⟨w, hw, htr⟩ := hstep j (Nat.lt_of_succ_lt_succ hi)
              exact ⟨w, by simpa using hw, by simpa using htr⟩
    · rintro ⟨states, h0, hn, hlen, hstep⟩
      obtain ⟨v, hv, htr⟩ := hstep 0 (Nat.succ_pos _)
      simp only [List.getElem_cons_zero, h0] at htr
      cases values with
      | nil => simp at hlen
      | cons v0 vs =>
        simp only [List.getElem?_cons_zero, Option.some.injEq] at hv
        subst hv
        have hrest : translateExpressions h g rest (states 1) = .ok (vs, s') := by
          apply (ih (states 1) vs s').2
          refine ⟨fun i => states (i + 1), rfl, hn, by simpa using hlen, ?_⟩
          intro i hi
          obtain ⟨w, hw, htr2⟩ := hstep (i + 1) (Nat.succ_lt_succ hi)
          exact ⟨w, by simpa using hw, by simpa using htr2⟩
        rw [htr]
        simp only []
        rw [hrest]

/-- Claim C15. `translateExpressions` on the empty list returns the empty list and leaves
the state as it was (nothing is emitted). On any list it returns `values` and the
state `s'` exactly when there are states `states 0 = s`, ..., `states n = s'` such
that `values` has the length of the list and, for every `i`, the `i`-th expression
translates from `states i` to the `i`-th value and `states (i + 1)`: the expressions
are translated strictly in list order, each from the state the one before left. -/
theorem translateExpressions_spec (h : Delegates) (g : GlobalState) :
    (∀ s : State, translateExpressions h g [] s = .ok ([], s)) ∧
    (∀ (exprs : List Expression) (s : State) (values : List LVal) (s' : State),
      translateExpressions h g exprs s = .ok (values, s') ↔
        ∃ states : Nat → State, states 0 = s ∧ states exprs.length = s' ∧
          values.length = exprs.length ∧
          ∀ (i : Nat) (hi : i < exprs.length), ∃ v, values[i]? = some v ∧
            translateExpression h g exprs[i] (states i) = .ok (v, states (i + 1))) :=
  ⟨fun _ => rfl, translateExpressions_chain h g⟩

end Midas

namespace Midas

/-- A `ConstantI64` is a source that yields its value as a 64-bit pattern. -/
theorem sourceRuns_constantI64 (h : Delegates) (g : GlobalState)
    (ext : Instr → Machine → Option Machine) (value : Int) (t : State) (m : Machine)
    (hr : m.returned = none) :
    SourceRuns h g ext (.ConstantI64 value) t m (value % 2 ^ 64) (.inst t.nextId)
      (makeConstIntExpr 64 value (buildFlare "ConstantI64" t)).2
      [.flare "ConstantI64", .makeConstIntExpr t.nextId 64 value]
      (m.setReg t.nextId (value % 2 ^ 64)) := by
  refine ⟨rfl, ?_, ?_, ?_, ?_, hr, ?_, ?_⟩
  · simp [makeConstIntExpr, State.emitValue, buildFlare, State.emit]
  · simp [exec, step, hr, Machine.setReg]
  · simp [makeConstIntExpr, State.emitValue, buildFlare, State.emit]
  · simp [makeConstIntExpr, State.emitValue, buildFlare, State.emit, LVal.below]
  · intro w hw
    exact evalV_setReg_below m t.nextId _ w hw
  · simp [evalV, Machine.setReg]

/-- One `LocalStore` whose source may itself write the slot: the old content is read
before the source's code and the store comes after it; the node returns the content
from before the source ran and leaves the source's value in the slot. -/
theorem localStore_run_general (h : Delegates) (g : GlobalState)
    (ext : Instr → Machine → Option Machine) (x : Local) (localName : String)
    (e : Expression) (s : State) (addr : LVal) (m0 : Machine) (a c0 A : Int)
    (v : LVal) (t' : State) (code : List Instr) (m' : Machine)
    (hx : s.getLocalAddr x.id = some addr) (hb : addr.below s.nextId)
    (ha : evalV m0 addr = some a) (hc : m0.mem a = some c0) (hr : m0.returned = none)
    (hsrc : SourceRuns h g ext e
      (LLVMBuildLoad addr localName (buildFlare "LocalStore" s)).2
      (m0.setReg s.nextId c0) A v t' code m') :
    translateExpression h g (.LocalStore x localName e) s =
        .ok (.inst s.nextId, LLVMBuildStore v addr t') ∧
    (LLVMBuildStore v addr t').instrs = s.instrs ++
      ([.flare "LocalStore", .load s.nextId addr localName] ++ code ++ [.store v addr]) ∧
    exec ext ([.flare "LocalStore", .load s.nextId addr localName] ++ code) m0 = some m' ∧
    exec ext ([.flare "LocalStore", .load s.nextId addr localName] ++ code ++
      [.store v addr]) m0 = some (m'.setMem a A) ∧
    evalV (m'.setMem a A) (.inst s.nextId) = some c0 ∧
    (m'.setMem a A).mem a = some A ∧
    s.nextId < t'.nextId ∧
    (m'.setMem a A).returned = none ∧
    (∀ w : LVal, w.below s.nextId → evalV (m'.setMem a A) w = evalV m0 w) := by
  obtain ⟨htr, hcode, hexec, hmono, _, hret, hpres, hval⟩ := hsrc
  have hx0 : (buildFlare "LocalStore" s).getLocalAddr x.id = some addr := hx
  have hnext : (LLVMBuildLoad addr localName (buildFlare "LocalStore" s)).2.nextId
      = s.nextId + 1 := rfl
  rw [hnext] at hmono hpres
  have haddr' : evalV m' addr = some a := by
    rw [hpres addr (below_mono (Nat.le_succ _) addr hb), evalV_setReg_below _ _ _ _ hb, ha]
  have h1 : exec ext [.flare "LocalStore", .load s.nextId addr localName] m0
      = some (m0.setReg s.nextId c0) := by
    simp [exec, step, hr, ha, hc, Machine.setReg]
  have h2 : exec ext ([.flare "LocalStore", .load s.nextId addr localName] ++ code) m0
      = some m' := by
    rw [exec_append]
    simp only [h1, hexec]
  refine ⟨?_, ?_, h2, ?_, ?_, ?_, ?_, hret, ?_⟩
  · simp only [translateExpression, hx0, bind, Except.bind, htr]
    rfl
  · simp only [LLVMBuildStore, State.emit, hcode]
    simp [LLVMBuildLoad, State.emitValue, buildFlare, State.emit]
  · rw [exec_append]
    simp only [h2]
    simp [exec, step, hret, hval, haddr']
  · rw [evalV_setMem, hpres (.inst s.nextId) (by simp [LVal.below])]
    simp [evalV, Machine.setReg]
  · simp [Machine.setMem]
  · omega
  · intro w hw
    rw [evalV_setMem, hpres w (below_mono (Nat.le_succ _) w hw),
      evalV_setReg_below _ _ _ _ hw]

/-- A `LocalStore` is itself a source: it yields the content the slot had before it. -/
theorem sourceRuns_localStore (h : Delegates) (g : GlobalState)
    (ext : Instr → Machine → Option Machine) (x : Local) (localName : String)
    (e : Expression) (s : State) (addr : LVal) (m0 : Machine) (a c0 A : Int)
    (v : LVal) (t' : State) (code : List Instr) (m' : Machine)
    (hx : s.getLocalAddr x.id = some addr) (hb : addr.below s.nextId)
    (ha : evalV m0 addr = some a) (hc : m0.mem a = some c0) (hr : m0.returned = none)
    (hsrc : SourceRuns h g ext e
      (LLVMBuildLoad addr localName (buildFlare "LocalStore" s)).2
      (m0.setReg s.nextId c0) A v t' code m') :
    SourceRuns h g ext (.LocalStore x localName e) s m0 c0 (.inst s.nextId)
      (LLVMBuildStore v addr t')
      ([.flare "LocalStore", .load s.nextId addr localName] ++ code ++ [.store v addr])
      (m'.setMem a A) := by
  obtain ⟨h1, h2, _, h4, h5, _, h7, h8, h9⟩ :=
    localStore_run_general h g ext x localName e s addr m0 a c0 A v t' code m' hx hb ha hc hr
      hsrc
  refine ⟨h1, h2, h4, ?_, ?_, h8, h9, h5⟩
  · show s.nextId ≤ t'.nextId
    omega
  · show s.nextId < t'.nextId
    exact h7

/-- Claim C19. In a `LocalStore` on `x` the read of the slot's old content is emitted
before the source's code and the store of the new value after it. So when the source
itself leaves a value `w` in the slot of `x` (it may write the slot), the outer
`LocalStore` still returns the content `c0` the slot had before the source ran, and
the slot finally holds the value `A` of the outer source: `w` is overwritten. -/
theorem localStore_source_writes_slot (h : Delegates) (g : GlobalState)
    (ext : Instr → Machine → Option Machine) (x : Local) (localName : String)
    (e : Expression) (s : State) (addr : LVal) (m0 : Machine) (a c0 A w : Int)
    (v : LVal) (t' : State) (code : List Instr) (m' : Machine)
    (hx : s.getLocalAddr x.id = some addr) (hb : addr.below s.nextId)
    (ha : evalV m0 addr = some a) (hc : m0.mem a = some c0) (hr : m0.returned = none)
    (hsrc : SourceRuns h g ext e
      (LLVMBuildLoad addr localName (buildFlare "LocalStore" s)).2
      (m0.setReg s.nextId c0) A v t' code m')
    (hw : m'.mem a = some w) :
    translateExpression h g (.LocalStore x localName e) s =
        .ok (.inst s.nextId, LLVMBuildStore v addr t') ∧
    (LLVMBuildStore v addr t').instrs = s.instrs ++
      ([.flare "LocalStore", .load s.nextId addr localName] ++ code ++ [.store v addr]) ∧
    (∃ mid, exec ext ([.flare "LocalStore", .load s.nextId addr localName] ++ code) m0
        = some mid ∧ mid.mem a = some w ∧
      ∃ mF, exec ext [.store v addr] mid = some mF ∧
        exec ext ([.flare "LocalStore", .load s.nextId addr localName] ++ code ++
          [.store v addr]) m0 = some mF ∧
        evalV mF (.inst s.nextId) = some c0 ∧
        mF.mem a = some A) := by
  obtain ⟨h1, h2, h3, h4, h5, h6, _, _, _⟩ :=
    localStore_run_general h g ext x localName e s addr m0 a c0 A v t' code m' hx hb ha hc hr
      hsrc
  refine ⟨h1, h2, m', h3, hw, m'.setMem a A, ?_, h4, h5, h6⟩
  have h4' := h4
  rw [exec_append, h3] at h4'
  exact h4'

end Midas

namespace Midas

/-- A run that has not returned executes its first instruction, then the rest. -/
theorem exec_cons (ext : Instr → Machine → Option Machine) (i : Instr) (rest : List Instr)
    (m m1 : Machine) (hr : m.returned = none) (hstep : step ext i m = some m1) :
    exec ext (i :: rest) m = exec ext rest m1 := by
  simp [exec, hr, hstep]

/-- A flare does nothing when run. -/
theorem exec_flare (ext : Instr → Machine → Option Machine) (name : String)
    (rest : List Instr) (m : Machine) :
    exec ext (.flare name :: rest) m = exec ext rest m := by
  cases hr : m.returned with
  | none => simp [exec, hr, step]
  | some r => rw [exec_halted ext _ m r hr, exec_halted ext _ m r hr]

/-- Claim C13. Push-local of `x` with an initializer that yields `V`, followed by
pop-local of `x`: the push-local yields `makeNever()` (not the initializer's value),
creates a slot and stores the initializer's value in it; the pop-local emits, after
its flare, one load from that slot and nothing else (no refcount adjustment, no
deallocation) and returns that load; run, the load has the value `V`. On any state
that knows the slot of `x`, an `Unstackify` emits only its flare and one load. -/
theorem stackify_unstackify_spec (h : Delegates) (g : GlobalState)
    (ext : Instr → Machine → Option Machine) (x : Local) (e : Expression) (s : State)
    (m : Machine) (V : Int) (v : LVal) (t' : State) (code : List Instr) (m' : Machine)
    (hsrc : SourceRuns h g ext e (buildFlare "Stackify" s) m V v t' code m') :
    translateExpressions h g [.Stackify x e, .Unstackify x] s =
      .ok ([makeNever, .inst (t'.nextId + 1)],
        { localAddrs := (x.id, .inst t'.nextId) :: t'.localAddrs,
          instrs := t'.instrs ++
            [.alloca t'.nextId x.id.name, .store v (.inst t'.nextId),
             .flare "Unstackify", .load (t'.nextId + 1) (.inst t'.nextId) ""],
          nextId := t'.nextId + 2 }) ∧
    (∃ mF, exec ext (code ++
        [.alloca t'.nextId x.id.name, .store v (.inst t'.nextId),
         .flare "Unstackify", .load (t'.nextId + 1) (.inst t'.nextId) ""]) m = some mF ∧
      evalV mF (.inst (t'.nextId + 1)) = some V) ∧
    (∀ (s1 : State) (localAddr : LVal), s1.getLocalAddr x.id = some localAddr →
      translateExpression h g (.Unstackify x) s1 =
        .ok (.inst s1.nextId,
          { localAddrs := s1.localAddrs,
            instrs := s1.instrs ++ [.flare "Unstackify", .load s1.nextId localAddr ""],
            nextId := s1.nextId + 1 })) := by
  obtain ⟨htr, _, hexec, _, hbelow, hret, _, hval⟩ := hsrc
  refine ⟨?_, ?_, ?_⟩
  · simp only [translateExpressions, translateExpression, htr, bind, Except.bind, pure,
      Except.pure]
    simp [makeLocal, LLVMBuildStore, LLVMBuildLoad, State.emitValue, State.emit,
      buildFlare, State.getLocalAddr]
  · have hv1 : evalV ({ m' with nextAddr := m'.nextAddr + 1 }.setReg t'.nextId m'.nextAddr) v
        = some V := by
      rw [evalV_setReg_below _ _ _ _ hbelow]
      cases v <;> exact hval
    have hs1 : step ext (.alloca t'.nextId x.id.name) m' =
        some ({ m' with nextAddr := m'.nextAddr + 1 }.setReg t'.nextId m'.nextAddr) := rfl
    have ha1 : evalV ({ m' with nextAddr := m'.nextAddr + 1 }.setReg t'.nextId m'.nextAddr)
        (.inst t'.nextId) = some m'.nextAddr := by
      simp [evalV, Machine.setReg]
    have hs2 : step ext (.store v (.inst t'.nextId))
        ({ m' with nextAddr := m'.nextAddr + 1 }.setReg t'.nextId m'.nextAddr) =
        some (({ m' with nextAddr := m'.nextAddr + 1 }.setReg t'.nextId m'.nextAddr).setMem
          m'.nextAddr V) := by
      simp only [step, hv1, ha1]
    have hs3 : step ext (.flare "Unstackify")
        (({ m' with nextAddr := m'.nextAddr + 1 }.setReg t'.nextId m'.nextAddr).setMem
          m'.nextAddr V) =
        some (({ m' with nextAddr := m'.nextAddr + 1 }.setReg t'.nextId m'.nextAddr).setMem
          m'.nextAddr V) := rfl
    have hs4 : step ext (.load (t'.nextId + 1) (.inst t'.nextId) "")
        (({ m' with nextAddr := m'.nextAddr + 1 }.setReg t'.nextId m'.nextAddr).setMem
          m'.nextAddr V) =
        some ((({ m' with nextAddr := m'.nextAddr + 1 }.setReg t'.nextId m'.nextAddr).setMem
          m'.nextAddr V).setReg (t'.nextId + 1) V) := by
      simp [step, evalV, Machine.setReg, Machine.setMem]
    refine ⟨(({ m' with nextAddr := m'.nextAddr + 1 }.setReg t'.nextId m'.nextAddr).setMem
        m'.nextAddr V).setReg (t'.nextId + 1) V, ?_, ?_⟩
    · rw [exec_append, hexec]
      show exec ext [.alloca t'.nextId x.id.name, .store v (.inst t'.nextId),
        .flare "Unstackify", .load (t'.nextId + 1) (.inst t'.nextId) ""] m' = _
      have hr1 : ({ m' with nextAddr := m'.nextAddr + 1 }.setReg t'.nextId
          m'.nextAddr).returned = none := hret
      have hr2 : (({ m' with nextAddr := m'.nextAddr + 1 }.setReg t'.nextId
          m'.nextAddr).setMem m'.nextAddr V).returned = none := hret
      rw [exec_cons ext _ _ _ _ hret hs1, exec_cons ext _ _ _ _ hr1 hs2,
        exec_cons ext _ _ _ _ hr2 hs3, exec_cons ext _ _ _ _ hr2 hs4]
      rfl
    · simp [evalV, Machine.setReg]
  · intro s1 localAddr hx
    have hx0 : (buildFlare "Unstackify" s1).getLocalAddr x.id = some localAddr := hx
    simp only [translateExpression, hx0]
    simp [LLVMBuildLoad, State.emitValue, buildFlare, State.emit]

/-- Claim C16. The block `[push-local x := const-i64(value); return (load x)]` with an
`INLINE` local `x` emits: the constant, a new slot for `x`, the store of the constant
into the slot, one load from the slot with no refcount adjustment, and a `ret` of the
loaded value. Run from a machine that has not returned, the code leaves the 64-bit
pattern of `value` in the slot and returns it; for a 64-bit `value` the signed reading
of the returned pattern is `value`, and for `0 ≤ value < 2^63` it is `value` itself. -/
theorem stackify_load_return_spec (h : Delegates) (g : GlobalState)
    (ext : Instr → Machine → Option Machine) (x : Local) (localName : String) (value : Int)
    (s : State) (m : Machine)
    (hinline : x.type.location = Location.INLINE) (hr : m.returned = none)
    (hlo : -(2 ^ 63) ≤ value) (hhi : value < 2 ^ 63) :
    translateExpression h g
        (.Block [.Stackify x (.ConstantI64 value), .Return (.LocalLoad x localName)]) s =
      .ok (.inst (s.nextId + 3),
        { localAddrs := (x.id, .inst (s.nextId + 1)) :: s.localAddrs,
          instrs := s.instrs ++
            [.flare "Block", .flare "Stackify", .flare "ConstantI64",
             .makeConstIntExpr s.nextId 64 value,
             .alloca (s.nextId + 1) x.id.name,
             .store (.inst s.nextId) (.inst (s.nextId + 1)),
             .flare "Return", .flare "LocalLoad",
             .load (s.nextId + 2) (.inst (s.nextId + 1)) localName,
             .ret (s.nextId + 3) (.inst (s.nextId + 2))],
          nextId := s.nextId + 4 }) ∧
    ∃ mF,
      exec ext
        [.flare "Block", .flare "Stackify", .flare "ConstantI64",
         .makeConstIntExpr s.nextId 64 value,
         .alloca (s.nextId + 1) x.id.name,
         .store (.inst s.nextId) (.inst (s.nextId + 1)),
         .flare "Return", .flare "LocalLoad",
         .load (s.nextId + 2) (.inst (s.nextId + 1)) localName,
         .ret (s.nextId + 3) (.inst (s.nextId + 2))] m = some mF ∧
      mF.mem m.nextAddr = some (value % 2 ^ 64) ∧
      mF.returned = some (value % 2 ^ 64) ∧
      asSigned64 (value % 2 ^ 64) = value ∧
      (0 ≤ value → value % 2 ^ 64 = value) := by
  refine ⟨?_, ?_⟩
  · simp [translateExpression, translateExpressions, bind, Except.bind, pure, Except.pure,
      makeLocal, makeConstIntExpr, LLVMBuildStore, LLVMBuildLoad, LLVMBuildRet,
      State.emitValue, State.emit, buildFlare, State.getLocalAddr, hinline]
  · have hr1 : (m.setReg s.nextId (value % 2 ^ 64)).returned = none := hr
    have hs1 : step ext (.makeConstIntExpr s.nextId 64 value) m =
        some (m.setReg s.nextId (value % 2 ^ 64)) := rfl
    have hs2 : step ext (.alloca (s.nextId + 1) x.id.name)
        (m.setReg s.nextId (value % 2 ^ 64)) =
        some ({ m.setReg s.nextId (value % 2 ^ 64) with nextAddr := m.nextAddr + 1 }.setReg
          (s.nextId + 1) m.nextAddr) := rfl
    have hs3 : step ext (.store (.inst s.nextId) (.inst (s.nextId + 1)))
        ({ m.setReg s.nextId (value % 2 ^ 64) with nextAddr := m.nextAddr + 1 }.setReg
          (s.nextId + 1) m.nextAddr) =
        some (({ m.setReg s.nextId (value % 2 ^ 64) with nextAddr := m.nextAddr + 1 }.setReg
          (s.nextId + 1) m.nextAddr).setMem m.nextAddr (value % 2 ^ 64)) := by
      simp [step, evalV, Machine.setReg]
    have hs4 : step ext (.load (s.nextId + 2) (.inst (s.nextId + 1)) localName)
        (({ m.setReg s.nextId (value % 2 ^ 64) with nextAddr := m.nextAddr + 1 }.setReg
          (s.nextId + 1) m.nextAddr).setMem m.nextAddr (value % 2 ^ 64)) =
        some ((({ m.setReg s.nextId (value % 2 ^ 64) with nextAddr := m.nextAddr + 1 }.setReg
          (s.nextId + 1) m.nextAddr).setMem m.nextAddr (value % 2 ^ 64)).setReg
            (s.nextId + 2) (value % 2 ^ 64)) := by
      simp [step, evalV, Machine.setReg, Machine.setMem]
    have hs5 : step ext (.ret (s.nextId + 3) (.inst (s.nextId + 2)))
        ((({ m.setReg s.nextId (value % 2 ^ 64) with nextAddr := m.nextAddr + 1 }.setReg
          (s.nextId + 1) m.nextAddr).setMem m.nextAddr (value % 2 ^ 64)).setReg
            (s.nextId + 2) (value % 2 ^ 64)) =
        some { ((({ m.setReg s.nextId (value % 2 ^ 64) with
            nextAddr := m.nextAddr + 1 }.setReg
          (s.nextId + 1) m.nextAddr).setMem m.nextAddr (value % 2 ^ 64)).setReg
            (s.nextId + 2) (value % 2 ^ 64)) with returned := some (value % 2 ^ 64) } := by
      simp [step, evalV, Machine.setReg]
    refine ⟨{ ((({ m.setReg s.nextId (value % 2 ^ 64) with
            nextAddr := m.nextAddr + 1 }.setReg
          (s.nextId + 1) m.nextAddr).setMem m.nextAddr (value % 2 ^ 64)).setReg
            (s.nextId + 2) (value % 2 ^ 64)) with returned := some (value % 2 ^ 64) },
      ?_, ?_, rfl, ?_, ?_⟩
    · rw [exec_flare, exec_flare, exec_flare, exec_cons ext _ _ _ _ hr hs1,
        exec_cons ext _ _ _ _ hr1 hs2, exec_cons ext _ _ _ _ (by exact hr) hs3,
        exec_flare, exec_flare,
        exec_cons ext _ _ _ _ (by exact hr) hs4, exec_cons ext _ _ _ _ (by exact hr) hs5]
      rfl
    · simp [Machine.setReg, Machine.setMem]
    · simp only [asSigned64]
      omega
    · intro h0
      omega

end Midas

namespace Midas

/-- The theorem `memberLoad_spec` at a `SHARE`, heap-resident struct given as argument 0:
one decrement of the struct operand. -/
theorem memberLoad_spec_witness :
    translateExpression noDelegates emptyGlobalState
        (.MemberLoad (.Argument 0) ⟨.SHARE, .YONDER, .StructReferend ⟨"Point"⟩⟩
          ⟨.SHARE, .INLINE, .Other "Int"⟩ 1 "second") emptyState =
      .ok (.inst 0,
        { localAddrs := [],
          instrs := [.flare "MemberLoad", .flare "Argument",
            .loadMember 0 ⟨.SHARE, .YONDER, .StructReferend ⟨"Point"⟩⟩ (.param 0) .IMMUTABLE
              ⟨.SHARE, .INLINE, .Other "Int"⟩ 1 "second",
            .discard ⟨.SHARE, .YONDER, .StructReferend ⟨"Point"⟩⟩ (.param 0)],
          nextId := 1 }) ∧
    rcDecrements (.param 0)
      [.loadMember 0 ⟨.SHARE, .YONDER, .StructReferend ⟨"Point"⟩⟩ (.param 0) .IMMUTABLE
          ⟨.SHARE, .INLINE, .Other "Int"⟩ 1 "second",
       .discard ⟨.SHARE, .YONDER, .StructReferend ⟨"Point"⟩⟩ (.param 0)] = 1 :=
  have hh := memberLoad_spec noDelegates emptyGlobalState (.Argument 0)
    ⟨.SHARE, .YONDER, .StructReferend ⟨"Point"⟩⟩ ⟨.SHARE, .INLINE, .Other "Int"⟩ 1 "second"
    emptyState (.param 0) _ rfl
  ⟨hh.1, hh.2.1⟩

/-- The theorem `stackify_unstackify_spec` at the initializer `ConstantI64 5`: the
pop-local returns `5`. -/
theorem stackify_unstackify_spec_witness :
    translateExpressions noDelegates emptyGlobalState
        [.Stackify ⟨⟨0, "x"⟩, ⟨.SHARE, .INLINE, .Other "Int"⟩⟩ (.ConstantI64 5),
         .Unstackify ⟨⟨0, "x"⟩, ⟨.SHARE, .INLINE, .Other "Int"⟩⟩] emptyState =
      .ok ([makeNever, .inst 2],
        { localAddrs := [(⟨0, "x"⟩, .inst 1)],
          instrs := [.flare "Stackify", .flare "ConstantI64", .makeConstIntExpr 0 64 5,
            .alloca 1 "x", .store (.inst 0) (.inst 1),
            .flare "Unstackify", .load 2 (.inst 1) ""],
          nextId := 3 }) ∧
    ∃ mF, exec noExt
        [.flare "ConstantI64", .makeConstIntExpr 0 64 5,
         .alloca 1 "x", .store (.inst 0) (.inst 1),
         .flare "Unstackify", .load 2 (.inst 1) ""]
        { regs := fun _ => none, mem := fun _ => none, params := fun _ => none,
          nextAddr := 100, returned := none } = some mF ∧
      evalV mF (.inst 2) = some 5 :=
  have hh := stackify_unstackify_spec noDelegates emptyGlobalState noExt
    ⟨⟨0, "x"⟩, ⟨.SHARE, .INLINE, .Other "Int"⟩⟩ (.ConstantI64 5) emptyState
    { regs := fun _ => none, mem := fun _ => none, params := fun _ => none,
      nextAddr := 100, returned := none } 5 _ _ _ _
    (sourceRuns_constantI64 _ _ _ 5 _ _ rfl)
  ⟨hh.1, hh.2.1⟩

/-- The theorem `structToInterfaceUpcast_inline_aborts` at an `INLINE` struct given as
argument 0, in a registry that holds the struct, the interface and the table. -/
theorem structToInterfaceUpcast_inline_aborts_witness :
    translateExpression noDelegates
        { program := { structs := [⟨⟨"Ship"⟩, [⟨⟨"Ship"⟩, ⟨"IVehicle"⟩⟩]⟩] },
          interfaceRefStructs := [(⟨"IVehicle"⟩, ⟨"IVehicleRef"⟩)],
          interfaceTablePtrs := [(⟨⟨"Ship"⟩, ⟨"IVehicle"⟩⟩, .global "Ship.IVehicle")] }
        (.StructToInterfaceUpcast (.Argument 0) ⟨.SHARE, .INLINE, .StructReferend ⟨"Ship"⟩⟩
          ⟨"Ship"⟩ ⟨"IVehicle"⟩) emptyState = .error .assertFailed :=
  (structToInterfaceUpcast_inline_aborts noDelegates
    { program := { structs := [⟨⟨"Ship"⟩, [⟨⟨"Ship"⟩, ⟨"IVehicle"⟩⟩]⟩] },
      interfaceRefStructs := [(⟨"IVehicle"⟩, ⟨"IVehicleRef"⟩)],
      interfaceTablePtrs := [(⟨⟨"Ship"⟩, ⟨"IVehicle"⟩⟩, .global "Ship.IVehicle")] }
    (.Argument 0) ⟨.SHARE, .INLINE, .StructReferend ⟨"Ship"⟩⟩ ⟨"Ship"⟩ ⟨"IVehicle"⟩
    emptyState rfl).1

/-- The theorem `translateExpressions_spec` at the list `[ConstantI64 1, Argument 0]`. -/
theorem translateExpressions_spec_witness :
    ∃ states : Nat → State, states 0 = emptyState ∧
      states 2 =
        { localAddrs := [],
          instrs := [.flare "ConstantI64", .makeConstIntExpr 0 64 1, .flare "Argument"],
          nextId := 1 } ∧
      ([.inst 0, .param 0] : List LVal).length = 2 ∧
      ∀ (i : Nat) (hi : i < 2), ∃ v, ([.inst 0, .param 0] : List LVal)[i]? = some v ∧
        translateExpression noDelegates emptyGlobalState
          ([.ConstantI64 1, .Argument 0] : List Expression)[i] (states i)
            = .ok (v, states (i + 1)) :=
  ((translateExpressions_spec noDelegates emptyGlobalState).2
    [.ConstantI64 1, .Argument 0] emptyState [.inst 0, .param 0]
    { localAddrs := [],
      instrs := [.flare "ConstantI64", .makeConstIntExpr 0 64 1, .flare "Argument"],
      nextId := 1 }).1 rfl

/-- The theorem `stackify_load_return_spec` at the constant `5`: the function returns
`5`. -/
theorem stackify_load_return_spec_witness :
    translateExpression noDelegates emptyGlobalState
        (.Block [.Stackify ⟨⟨0, "x"⟩, ⟨.SHARE, .INLINE, .Other "Int"⟩⟩ (.ConstantI64 5),
          .Return (.LocalLoad ⟨⟨0, "x"⟩, ⟨.SHARE, .INLINE, .Other "Int"⟩⟩ "x")]) emptyState =
      .ok (.inst 3,
        { localAddrs := [(⟨0, "x"⟩, .inst 1)],
          instrs := [.flare "Block", .flare "Stackify", .flare "ConstantI64",
            .makeConstIntExpr 0 64 5, .alloca 1 "x", .store (.inst 0) (.inst 1),
            .flare "Return", .flare "LocalLoad", .load 2 (.inst 1) "x",
            .ret 3 (.inst 2)],
          nextId := 4 }) ∧
    ∃ mF, exec noExt
        [.flare "Block", .flare "Stackify", .flare "ConstantI64",
         .makeConstIntExpr 0 64 5, .alloca 1 "x", .store (.inst 0) (.inst 1),
         .flare "Return", .flare "LocalLoad", .load 2 (.inst 1) "x",
         .ret 3 (.inst 2)]
        { regs := fun _ => none, mem := fun _ => none, params := fun _ => none,
          nextAddr := 100, returned := none } = some mF ∧
      mF.mem 100 = some 5 ∧ mF.returned = some 5 :=
  have hh := stackify_load_return_spec noDelegates emptyGlobalState noExt
    ⟨⟨0, "x"⟩, ⟨.SHARE, .INLINE, .Other "Int"⟩⟩ "x" 5 emptyState
    { regs := fun _ => none, mem := fun _ => none, params := fun _ => none,
      nextAddr := 100, returned := none } rfl rfl (by decide) (by decide)
  match hh with
  | ⟨h1, mF, h2, h3, h4, _⟩ => ⟨h1, mF, h2, h3, h4⟩

/-- The theorem `arrayLoad_spec` at a fixed-length array of size 3 and at a
variable-length array, both given as argument 0 with the index as argument 1. -/
theorem arrayLoad_spec_witness :
    translateExpression noDelegates emptyGlobalState
        (.KnownSizeArrayLoad ⟨.BORROW, .YONDER, .KnownSizeArrayT ⟨⟨"Arr3"⟩, 3⟩⟩ (.Argument 0)
          (.Argument 1)) emptyState =
      .ok (.inst 1,
        { localAddrs := [],
          instrs := [.flare "KnownSizeArrayLoad", .flare "Argument", .flare "Argument",
            .discard ⟨.BORROW, .YONDER, .KnownSizeArrayT ⟨⟨"Arr3"⟩, 3⟩⟩ (.param 0),
            .getKnownSizeArrayContentsPtr 0 (.param 0),
            .loadElement 1 ⟨.BORROW, .YONDER, .KnownSizeArrayT ⟨⟨"Arr3"⟩, 3⟩⟩
              (.constInt 64 3) (.inst 0) .MUTABLE (.param 1)],
          nextId := 2 }) ∧
    translateExpression noDelegates emptyGlobalState
        (.UnknownSizeArrayLoad ⟨.SHARE, .YONDER, .UnknownSizeArrayT ⟨"Arr"⟩⟩ (.Argument 0)
          (.Argument 1)) emptyState =
      .ok (.inst 2,
        { localAddrs := [],
          instrs := [.flare "UnknownSizeArrayLoad", .flare "Argument",
            .getUnknownSizeArrayLength 0 (.param 0), .flare "Argument",
            .discard ⟨.SHARE, .YONDER, .UnknownSizeArrayT ⟨"Arr"⟩⟩ (.param 0),
            .getUnknownSizeArrayContentsPtr 1 (.param 0),
            .loadElement 2 ⟨.SHARE, .YONDER, .UnknownSizeArrayT ⟨"Arr"⟩⟩ (.inst 0) (.inst 1)
              .IMMUTABLE (.param 1)],
          nextId := 3 }) :=
  ⟨(arrayLoad_spec noDelegates emptyGlobalState
      ⟨.BORROW, .YONDER, .KnownSizeArrayT ⟨⟨"Arr3"⟩, 3⟩⟩ (.Argument 0) (.Argument 1)
      emptyState).1 ⟨⟨"Arr3"⟩, 3⟩ (.param 0) (.param 1) _ _ rfl rfl rfl,
   (arrayLoad_spec noDelegates emptyGlobalState
      ⟨.SHARE, .YONDER, .UnknownSizeArrayT ⟨"Arr"⟩⟩ (.Argument 0) (.Argument 1)
      emptyState).2 (.param 0) (.param 1) _ _ rfl rfl⟩

/-- The theorem `memberStore_spec` at the store of the constant `1` into a field of the
struct given as argument 0. -/
theorem memberStore_spec_witness :
    translateExpression noDelegates
        { program := { structs := [⟨⟨"Point"⟩, []⟩] }, interfaceRefStructs := [],
          interfaceTablePtrs := [] }
        (.MemberStore (.ConstantI64 1) (.Argument 0)
          ⟨.BORROW, .YONDER, .StructReferend ⟨"Point"⟩⟩ 1 "second") emptyState =
      .ok (.inst 1,
        { localAddrs := [],
          instrs := [.flare "MemberStore",
            .flare "ConstantI64", .makeConstIntExpr 0 64 1,
            .flare "Argument",
            .swapMember 1 ⟨⟨"Point"⟩, []⟩ (.param 0) 1 "second" (.inst 0),
            .discard ⟨.BORROW, .YONDER, .StructReferend ⟨"Point"⟩⟩ (.param 0)],
          nextId := 2 }) :=
  memberStore_spec noDelegates
    { program := { structs := [⟨⟨"Point"⟩, []⟩] }, interfaceRefStructs := [],
      interfaceTablePtrs := [] }
    (.ConstantI64 1) (.Argument 0) ⟨.BORROW, .YONDER, .StructReferend ⟨"Point"⟩⟩ 1 "second"
    emptyState (.inst 0) (.param 0) _ _ ⟨"Point"⟩ ⟨⟨"Point"⟩, []⟩ rfl rfl rfl (by decide)

/-- The theorem `localStore_source_writes_slot` at a `LocalStore` on `x` whose source is
a `LocalStore` of `9` on `x`, the slot (address `100`) holding `7`: the source leaves `9`
in the slot, the outer store returns `7` and leaves `7`, the value of its source. -/
theorem localStore_source_writes_slot_witness :
    translateExpression noDelegates emptyGlobalState
        (.LocalStore ⟨⟨0, "x"⟩, ⟨.SHARE, .INLINE, .Other "Int"⟩⟩ "x"
          (.LocalStore ⟨⟨0, "x"⟩, ⟨.SHARE, .INLINE, .Other "Int"⟩⟩ "x" (.ConstantI64 9)))
        { localAddrs := [(⟨0, "x"⟩, .inst 0)], instrs := [.alloca 0 "x"], nextId := 1 } =
      .ok (.inst 1,
        { localAddrs := [(⟨0, "x"⟩, .inst 0)],
          instrs := [.alloca 0 "x",
            .flare "LocalStore", .load 1 (.inst 0) "x",
            .flare "LocalStore", .load 2 (.inst 0) "x",
            .flare "ConstantI64", .makeConstIntExpr 3 64 9,
            .store (.inst 3) (.inst 0),
            .store (.inst 2) (.inst 0)],
          nextId := 4 }) ∧
    ∃ mid, exec noExt
        [.flare "LocalStore", .load 1 (.inst 0) "x",
         .flare "LocalStore", .load 2 (.inst 0) "x",
         .flare "ConstantI64", .makeConstIntExpr 3 64 9,
         .store (.inst 3) (.inst 0)]
        { regs := fun k => if k = 0 then some 100 else none,
          mem := fun k => if k = 100 then some 7 else none,
          params := fun _ => none, nextAddr := 101, returned := none } = some mid ∧
      mid.mem 100 = some 9 ∧
      ∃ mF, exec noExt [.store (.inst 2) (.inst 0)] mid = some mF ∧
        evalV mF (.inst 1) = some 7 ∧ mF.mem 100 = some 7 :=
  let m0 : Machine :=
    { regs := fun k => if k = 0 then some 100 else none,
      mem := fun k => if k = 100 then some 7 else none,
      params := fun _ => none, nextAddr := 101, returned := none }
  let s0 : State :=
    { localAddrs := [(⟨0, "x"⟩, .inst 0)], instrs := [.alloca 0 "x"], nextId := 1 }
  let x : Local := ⟨⟨0, "x"⟩, ⟨.SHARE, .INLINE, .Other "Int"⟩⟩
  have hh := localStore_source_writes_slot noDelegates emptyGlobalState noExt x "x"
    (.LocalStore x "x" (.ConstantI64 9)) s0 (.inst 0) m0 100 7 7 9 _ _ _ _
    rfl (by decide) rfl rfl rfl
    (sourceRuns_localStore noDelegates emptyGlobalState noExt x "x" (.ConstantI64 9)
      (LLVMBuildLoad (.inst 0) "x" (buildFlare "LocalStore" s0)).2 (.inst 0)
      (m0.setReg 1 7) 100 7 9 _ _ _ _ rfl (by decide) rfl rfl rfl
      (sourceRuns_constantI64 _ _ _ 9 _ _ rfl))
    rfl
  match hh with
  | ⟨h1, _, mid, h3, h4, mF, h5, _, h7, h8⟩ => ⟨h1, mid, h3, h4, mF, h5, h7, h8⟩

end Midas

namespace Midas

/-- The theorem `block_spec` at the block `[const 1; const 2; argument 0]` and at the block
`[push-local x := const 5; load x]`: the first translates all three sub-expressions in
order and yields the value of the last one (argument 0), not the value of an earlier
one; the second yields the value of the load, which reads the slot the push-local
before it created. -/
theorem block_spec_witness :
    translateExpression noDelegates emptyGlobalState
        (.Block [.ConstantI64 1, .ConstantI64 2, .Argument 0]) emptyState =
      .ok (.param 0,
        { localAddrs := [],
          instrs := [.flare "Block", .flare "ConstantI64", .makeConstIntExpr 0 64 1,
            .flare "ConstantI64", .makeConstIntExpr 1 64 2, .flare "Argument"],
          nextId := 2 }) ∧
    translateExpression noDelegates emptyGlobalState
        (.Block [.Stackify ⟨⟨0, "x"⟩, ⟨.SHARE, .INLINE, .Other "Int"⟩⟩ (.ConstantI64 5),
          .LocalLoad ⟨⟨0, "x"⟩, ⟨.SHARE, .INLINE, .Other "Int"⟩⟩ "x"]) emptyState =
      .ok (.inst 2,
        { localAddrs := [(⟨0, "x"⟩, .inst 1)],
          instrs := [.flare "Block", .flare "Stackify", .flare "ConstantI64",
            .makeConstIntExpr 0 64 5, .alloca 1 "x", .store (.inst 0) (.inst 1),
            .flare "LocalLoad", .load 2 (.inst 1) "x"],
          nextId := 3 }) :=
  ⟨(block_spec noDelegates emptyGlobalState [.ConstantI64 1, .ConstantI64 2] (.Argument 0)
      emptyState).trans rfl,
   (block_spec noDelegates emptyGlobalState
      [.Stackify ⟨⟨0, "x"⟩, ⟨.SHARE, .INLINE, .Other "Int"⟩⟩ (.ConstantI64 5)]
      (.LocalLoad ⟨⟨0, "x"⟩, ⟨.SHARE, .INLINE, .Other "Int"⟩⟩ "x") emptyState).trans rfl⟩

end Midas
